import Mathlib

/-!
# chef-load: the Data Collector client (`data-collector.go`)

A shallow embedding of `data-collector.go` and a verification of its
run-start / run-converge payload builders and of the HTTP client they use.

Go library behaviour the file relies on (`encoding/json`, `time.Time.Format`,
`net/http`, `net/url`, `satori/go.uuid`) is modelled next to the code that
calls it; every such definition says which library function it stands for.
-/

namespace ChefLoad

/-! ## Go values as seen by `encoding/json` -/

mutual
/-- A Go value reachable through `interface{}`, as far as `encoding/json`
distinguishes it. `null` is a nil pointer, nil slice, nil map or nil
interface; `array` is a non-nil slice; `struct` carries its encoded fields in
declaration order; `map` is a `map[string]T`; `unsupported` is a value that
`json.Marshal` rejects with an `UnsupportedTypeError` (channel, function,
complex number). Numbers are restricted to integers, and strings to valid
UTF-8 text. -/
inductive GoValue where
  | null : GoValue
  | bool (b : Bool) : GoValue
  | int (n : Int) : GoValue
  | string (s : String) : GoValue
  | array (xs : GoValues) : GoValue
  | struct (fields : GoFields) : GoValue
  | map (entries : GoFields) : GoValue
  | unsupported : GoValue
/-- A sequence of Go values (the elements of a slice). -/
inductive GoValues where
  | nil : GoValues
  | cons (v : GoValue) (vs : GoValues) : GoValues
/-- A sequence of named Go values (struct fields or map entries). -/
inductive GoFields where
  | nil : GoFields
  | cons (k : String) (v : GoValue) (rest : GoFields) : GoFields
end

/-- The elements of a `GoValues` as a list. -/
def GoValues.toList : GoValues → List GoValue
  | .nil => []
  | .cons v vs => v :: vs.toList

/-- Build a `GoValues` from a list. -/
def GoValues.ofList : List GoValue → GoValues
  | [] => .nil
  | v :: vs => .cons v (GoValues.ofList vs)

/-- Build a `GoFields` from a list of pairs. -/
def GoFields.ofList : List (String × GoValue) → GoFields
  | [] => .nil
  | (k, v) :: rest => .cons k v (GoFields.ofList rest)

/-- Map index expression `m[k]`: the value stored under `k`, if any. -/
def GoFields.lookup (k : String) : GoFields → Option GoValue
  | .nil => none
  | .cons k' v rest => if k' = k then some v else rest.lookup k

/-! ## Go slices -/

/-- A Go slice: either the nil slice or a (possibly empty) backing sequence. -/
inductive Slice (α : Type) where
  | nil : Slice α
  | mk (elems : List α) : Slice α

/-- The elements of a slice; the nil slice has none. -/
def Slice.toList {α : Type} : Slice α → List α
  | .nil => []
  | .mk xs => xs

/-- Go's `append(s, x)`: appending to the nil slice allocates. -/
def Slice.append {α : Type} (s : Slice α) (x : α) : Slice α :=
  .mk (s.toList ++ [x])

/-- How `encoding/json` sees a slice: nil encodes as `null`, anything else as
an array of its elements. -/
def Slice.toGo {α : Type} (f : α → GoValue) : Slice α → GoValue
  | .nil => .null
  | .mk xs => .array (GoValues.ofList (xs.map f))

/-! ## Struct encoding with field tags -/

/-- The part of a `json:"..."` field tag that `encoding/json` reads. -/
structure FieldTag where
  name : String
  omitEmpty : Bool

/-- The predicate `isEmptyValue` of `encoding/json`: false, 0, a nil pointer,
a nil interface, and any empty array, slice, map or string. -/
def isEmptyValue : GoValue → Bool
  | .null => true
  | .bool b => !b
  | .int n => n == 0
  | .string s => s == ""
  | .array .nil => true
  | .map .nil => true
  | _ => false

/-- The fields `encoding/json` emits for a struct: every tagged field in
declaration order, except an `omitempty` field holding an empty value. -/
def structFields : List (FieldTag × GoValue) → GoFields
  | [] => .nil
  | (t, v) :: rest =>
    if t.omitEmpty && isEmptyValue v then structFields rest
    else .cons t.name v (structFields rest)

/-! ## The run list -/

/-- One run-list item, with the three fields `dataCollectorRunStop` reads. -/
structure runListItem where
  name : String
  itemType : String
  version : String
  deriving DecidableEq, Repr

/-- A run list is a slice of items; only its elements matter to `range`. -/
abbrev runList := List runListItem

/-- The record `expandedRunListItem`; `Version` is a `*string`. -/
structure expandedRunListItem where
  ItemType : String
  Name : String
  Version : Option String
  Skipped : Bool
  deriving DecidableEq, Repr

/-- The struct as `encoding/json` sees it: tags `type`, `name`, `version`,
`skipped`, none of them `omitempty`. -/
def expandedRunListItem.toGo (e : expandedRunListItem) : GoValue :=
  .struct (structFields
    [ (⟨"type", false⟩, .string e.ItemType),
      (⟨"name", false⟩, .string e.Name),
      (⟨"version", false⟩, match e.Version with
                            | none => .null
                            | some v => .string v),
      (⟨"skipped", false⟩, .bool e.Skipped) ])

/-- The body of the `range` loop of `dataCollectorRunStop`: the record built
for one run-list item. -/
def expandItem (runListItem : runListItem) : expandedRunListItem :=
  let erli : expandedRunListItem :=
    { Name := runListItem.name, ItemType := runListItem.itemType,
      Version := none, Skipped := false }
  if runListItem.version ≠ "" then
    { erli with Version := some runListItem.version }
  else erli

/-- The loop of `dataCollectorRunStop`: starting from the nil slice
`expandedRunListItems`, append one record per item, in order. -/
def expandRunList (expandedRunList : runList) : Slice expandedRunListItem :=
  expandedRunList.foldl (fun items item => items.append (expandItem item)) .nil

/-! ## Decimal and hexadecimal digits -/

/-- The character of a digit value below 16, lower case as in Go's tables. -/
def digitChar (d : Nat) : Char :=
  match d with
  | 0 => '0' | 1 => '1' | 2 => '2' | 3 => '3' | 4 => '4'
  | 5 => '5' | 6 => '6' | 7 => '7' | 8 => '8' | 9 => '9'
  | 10 => 'a' | 11 => 'b' | 12 => 'c' | 13 => 'd' | 14 => 'e'
  | _ => 'f'

/-- The decimal digits of `n`, least significant first; `fuel` bounds the
number of digits produced. -/
def digitsLE : Nat → Nat → List Nat
  | 0, _ => []
  | fuel + 1, n => if n < 10 then [n] else (n % 10) :: digitsLE fuel (n / 10)

/-- The decimal numeral of a natural number, without leading zeros. -/
def decimal (n : Nat) : List Char :=
  ((digitsLE (n + 1) n).reverse).map digitChar

/-- Zero padding on the left up to `width` characters. -/
def padZero (width : Nat) (ds : List Char) : List Char :=
  List.replicate (width - ds.length) '0' ++ ds

/-- The helper `appendInt` of package `time`: an optional minus sign, then
the magnitude in decimal, zero-padded to `width` digits. -/
def appendInt (x : Int) (width : Nat) : List Char :=
  (if x < 0 then ['-'] else []) ++ padZero width (decimal x.natAbs)

/-- Two lower-case hexadecimal digits of a byte, as `hex.Encode` writes. -/
def hexByte (b : Nat) : List Char :=
  [digitChar (b / 16 % 16), digitChar (b % 16)]

/-! ## `time.Time` and `Format` -/

/-- The value of a 64-bit signed integer after wrap-around. -/
def wrapInt64 (x : Int) : Int := (x + 2 ^ 63) % 2 ^ 64 - 2 ^ 63

/-- A `time.Time` as far as a second-precision layout can see it: the instant
as seconds since the Unix epoch (an `int64`: what `t.Unix()` returns), and
the offset east of UTC, in seconds, that the value's `Location` has at that
instant. Two values with the same `unix` denote the same instant. -/
structure Time where
  unix : Int
  offset : Int
  deriving DecidableEq, Repr

/-- The method `Time.UTC`: the same instant, with location UTC. -/
def Time.UTC (t : Time) : Time := { t with offset := 0 }

/-- The broken-down date and clock that `Format` prints. -/
structure Civil where
  year : Int
  month : Int
  day : Int
  hour : Int
  minute : Int
  second : Int
  deriving DecidableEq, Repr

/-- The proleptic Gregorian calendar date and the clock time of a count of
seconds since 1970-01-01T00:00:00, which is what the methods `Date` and
`Clock` of `time.Time` compute from the wall-clock seconds. -/
def civilOfSeconds (s : Int) : Civil :=
  let days := s / 86400
  let rem := s % 86400
  let z := days + 719468
  let era := z / 146097
  let doe := z % 146097
  let yoe := (doe - doe / 1460 + doe / 36524 - doe / 146096) / 365
  let doy := doe - (365 * yoe + yoe / 4 - yoe / 100)
  let mp := (5 * doy + 2) / 153
  let d := doy - (153 * mp + 2) / 5 + 1
  let m := if mp < 10 then mp + 3 else mp - 9
  let y := yoe + era * 400 + (if m ≤ 2 then 1 else 0)
  { year := y, month := m, day := d,
    hour := rem / 3600, minute := rem % 3600 / 60, second := rem % 60 }

/-- Whether a year of the proleptic Gregorian calendar is a leap year. -/
def isLeapYear (y : Int) : Bool :=
  y % 4 = 0 && (y % 100 ≠ 0 || y % 400 = 0)

/-- The number of days of a month. -/
def daysInMonth (y m : Int) : Int :=
  if m = 2 then (if isLeapYear y then 29 else 28)
  else if m = 4 ∨ m = 6 ∨ m = 9 ∨ m = 11 then 30
  else 31

/-- The number of days from 1 January of year 1 to 1 January of year `y`. -/
def daysBeforeYear (y : Int) : Int :=
  365 * (y - 1) + (y - 1) / 4 - (y - 1) / 100 + (y - 1) / 400

/-- The number of days of year `y` before the first day of month `m`. -/
def daysBeforeMonth (y m : Int) : Int :=
  (if m = 1 then 0 else if m = 2 then 31 else if m = 3 then 59 else if m = 4 then 90
   else if m = 5 then 120 else if m = 6 then 151 else if m = 7 then 181
   else if m = 8 then 212 else if m = 9 then 243 else if m = 10 then 273
   else if m = 11 then 304 else 334) + (if 2 < m ∧ isLeapYear y then 1 else 0)

/-- The number of days from 1 January 1970 to the given date; 719162 days lie
between 1 January of year 1 and 1 January 1970. -/
def dayNumber (y m d : Int) : Int :=
  daysBeforeYear y + daysBeforeMonth y m + (d - 1) - 719162

/-- The broken-down time `c` is the calendar date and clock time of the
second count `s` (seconds since 1970-01-01T00:00:00): a date that exists in
the proleptic Gregorian calendar, a clock time within the day, and together
exactly `s` seconds after the epoch. -/
def Civil.IsDateOf (c : Civil) (s : Int) : Prop :=
  1 ≤ c.month ∧ c.month ≤ 12 ∧ 1 ≤ c.day ∧ c.day ≤ daysInMonth c.year c.month ∧
  0 ≤ c.hour ∧ c.hour < 24 ∧ 0 ≤ c.minute ∧ c.minute < 60 ∧
  0 ≤ c.second ∧ c.second < 60 ∧
  dayNumber c.year c.month c.day * 86400 + c.hour * 3600 + c.minute * 60 + c.second = s

/-- The constant `unixToInternal + internalToAbsolute` of package `time`: the
seconds from the start of its absolute time scale, 1 January of year
-292277022399, to the Unix epoch. (From Go 1.23 the scale starts 306 days
earlier, on 1 March of the year before; the two differ only for wall clocks
in those 306 days.) -/
def unixToAbsolute : Int := 9223372028715321600

/-- The method `abs` of `time.Time`: the wall-clock seconds on the absolute
scale, a `uint64`. The zone offset is added to the Unix seconds as an
`int64`, and the sum is counted from the start of the absolute scale modulo
2^64; `Format` makes no conversion to UTC. -/
def Time.abs (t : Time) : Int :=
  (wrapInt64 (t.unix + t.offset) + unixToAbsolute) % 2 ^ 64

/-- The wall clock that `Format` prints: the date and clock of the absolute
second count `t.abs()`. -/
def Time.civil (t : Time) : Civil := civilOfSeconds (t.abs - unixToAbsolute)

/-- The layout interpreter of `Time.Format` on the directives `2006` (year),
`01` (month), `02` (day), `15` (hour), `04` (minute) and `05` (second); any
other character is copied to the output. The zone directives of `Format` all
begin with `Z07` or `-07`, so a `Z` that ends the layout is no directive and
is copied verbatim. Layouts using other directives are outside this model. -/
def formatLayout (c : Civil) : List Char → List Char
  | '2' :: '0' :: '0' :: '6' :: rest => appendInt c.year 4 ++ formatLayout c rest
  | '0' :: '1' :: rest => appendInt c.month 2 ++ formatLayout c rest
  | '0' :: '2' :: rest => appendInt c.day 2 ++ formatLayout c rest
  | '1' :: '5' :: rest => appendInt c.hour 2 ++ formatLayout c rest
  | '0' :: '4' :: rest => appendInt c.minute 2 ++ formatLayout c rest
  | '0' :: '5' :: rest => appendInt c.second 2 ++ formatLayout c rest
  | ch :: rest => ch :: formatLayout c rest
  | [] => []

/-- The text `YYYY-MM-DDTHH:MM:SSZ` of a broken-down date and clock: the
fields zero-padded to 4, 2, 2, 2, 2 and 2 digits, the separators `-`, `T` and
`:`, and a final letter `Z`. -/
def wallClockText (c : Civil) : String :=
  String.mk (appendInt c.year 4 ++ ['-'] ++ appendInt c.month 2 ++ ['-'] ++
    appendInt c.day 2 ++ ['T'] ++ appendInt c.hour 2 ++ [':'] ++
    appendInt c.minute 2 ++ [':'] ++ appendInt c.second 2 ++ ['Z'])

/-- The method `Time.Format`. -/
def Time.Format (t : Time) (layout : String) : String :=
  String.mk (formatLayout t.civil layout.toList)

/-- The constant `iso8601DateTime`. -/
def iso8601DateTime : String := "2006-01-02T15:04:05Z"

/-! ## UUIDs -/

/-- A `uuid.UUID`: sixteen bytes. -/
structure UUID where
  byte : Fin 16 → Fin 256

/-- The hexadecimal text of the bytes `lo, lo+1, ..., lo+n-1` of a UUID. -/
def UUID.hex (u : UUID) (lo : Nat) : Nat → List Char
  | 0 => []
  | n + 1 => hexByte (u.byte (Fin.ofNat lo)).val ++ u.hex (lo + 1) n

/-- The method `UUID.String`: the canonical 8-4-4-4-12 rendering. -/
def UUID.String (u : UUID) : String :=
  String.mk (u.hex 0 4 ++ ['-'] ++ u.hex 4 2 ++ ['-'] ++ u.hex 6 2 ++ ['-'] ++
    u.hex 8 2 ++ ['-'] ++ u.hex 10 6)

/-! ## JSON documents, `json.Marshal`, and a JSON reader -/

mutual
/-- A JSON document (numbers restricted to integers). -/
inductive Json where
  | null : Json
  | bool (b : Bool) : Json
  | num (n : Int) : Json
  | str (s : String) : Json
  | arr (elems : JsonList) : Json
  | obj (members : JsonMembers) : Json
/-- The elements of a JSON array. -/
inductive JsonList where
  | nil : JsonList
  | cons (j : Json) (js : JsonList) : JsonList
/-- The members of a JSON object, in document order. -/
inductive JsonMembers where
  | nil : JsonMembers
  | cons (k : String) (j : Json) (rest : JsonMembers) : JsonMembers
end

/-- The value of the first member named `k`, if any. -/
def JsonMembers.lookup (k : String) : JsonMembers → Option Json
  | .nil => none
  | .cons k' j rest => if k' = k then some j else rest.lookup k

/-- The member `k` of a document: of an object its first member of that name,
of any other document nothing. -/
def Json.member (k : String) : Json → Option Json
  | .obj members => members.lookup k
  | _ => none

/-- The member names, in document order. -/
def JsonMembers.keys : JsonMembers → List String
  | .nil => []
  | .cons k _ rest => k :: rest.keys

/-- Go's `<` on strings: lexicographic order of the encoded text, which for
valid UTF-8 is the lexicographic order of the code points. -/
def keyLt : List Char → List Char → Bool
  | _, [] => false
  | [], _ :: _ => true
  | a :: as, b :: bs =>
    if a.toNat < b.toNat then true
    else if b.toNat < a.toNat then false
    else keyLt as bs

/-- Insert a member before the first member whose key is not smaller. -/
def JsonMembers.insert (k : String) (j : Json) : JsonMembers → JsonMembers
  | .nil => .cons k j .nil
  | .cons k' j' rest =>
    if keyLt k'.toList k.toList then .cons k' j' (JsonMembers.insert k j rest)
    else .cons k j (.cons k' j' rest)

/-- Members sorted by key: `encoding/json` writes the entries of a map in the
order of their keys. -/
def JsonMembers.sort : JsonMembers → JsonMembers
  | .nil => .nil
  | .cons k j rest => JsonMembers.insert k j (JsonMembers.sort rest)

/-- An error value; Go's `error` interface, identified by its message. -/
abbrev Error := String

mutual
/-- What `json.Marshal` makes of a Go value: nil is `null`, a struct is an
object of its fields in declaration order, a map is an object of its entries
sorted by key, and an unsupported value anywhere aborts with an error. -/
def marshal : GoValue → Except Error Json
  | .null => .ok .null
  | .bool b => .ok (.bool b)
  | .int n => .ok (.num n)
  | .string s => .ok (.str s)
  | .array xs =>
    match marshalList xs with
    | .ok js => .ok (.arr js)
    | .error e => .error e
  | .struct fields =>
    match marshalFields fields with
    | .ok ms => .ok (.obj ms)
    | .error e => .error e
  | .map entries =>
    match marshalFields entries with
    | .ok ms => .ok (.obj ms.sort)
    | .error e => .error e
  | .unsupported => .error "json: unsupported type"
/-- Marshal the elements of a slice. -/
def marshalList : GoValues → Except Error JsonList
  | .nil => .ok .nil
  | .cons v vs =>
    match marshal v with
    | .error e => .error e
    | .ok j =>
      match marshalList vs with
      | .ok js => .ok (.cons j js)
      | .error e => .error e
/-- Marshal named values, keeping their order. -/
def marshalFields : GoFields → Except Error JsonMembers
  | .nil => .ok .nil
  | .cons k v rest =>
    match marshal v with
    | .error e => .error e
    | .ok j =>
      match marshalFields rest with
      | .ok ms => .ok (.cons k j ms)
      | .error e => .error e
end

/-- How `encoding/json` writes one character of a string (HTML escaping on,
as it is for an `Encoder`): quote and backslash get a backslash; backspace,
form feed, newline, carriage return and tab their short escapes; the other
control characters, `<`, `>`, `&`, U+2028 and U+2029 a `\u` escape; every
other character is copied. (Before Go 1.22 backspace and form feed were
written `\u0008` and `\u000c`, which read back to the same characters.) -/
def escapeChar (c : Char) : List Char :=
  if c = '"' then ['\\', '"']
  else if c = '\\' then ['\\', '\\']
  else if c = Char.ofNat 8 then ['\\', 'b']
  else if c = Char.ofNat 12 then ['\\', 'f']
  else if c = '\n' then ['\\', 'n']
  else if c = '\r' then ['\\', 'r']
  else if c = '\t' then ['\\', 't']
  else if c.toNat < 32 ∨ c = '<' ∨ c = '>' ∨ c = '&' then
    ['\\', 'u', '0', '0', digitChar (c.toNat / 16), digitChar (c.toNat % 16)]
  else if c = Char.ofNat 8232 then ['\\', 'u', '2', '0', '2', '8']
  else if c = Char.ofNat 8233 then ['\\', 'u', '2', '0', '2', '9']
  else [c]

/-- The characters of a string, each escaped. -/
def escapeChars : List Char → List Char
  | [] => []
  | c :: cs => escapeChar c ++ escapeChars cs

/-- A JSON string literal. -/
def renderString (s : String) : List Char :=
  '"' :: (escapeChars s.toList ++ ['"'])

/-- A JSON integer literal, as `strconv.AppendInt` writes it. -/
def renderInt (n : Int) : List Char :=
  (if n < 0 then ['-'] else []) ++ decimal n.natAbs

mutual
/-- The compact text `encoding/json` writes for a document. -/
def Json.render : Json → List Char
  | .null => ['n', 'u', 'l', 'l']
  | .bool true => ['t', 'r', 'u', 'e']
  | .bool false => ['f', 'a', 'l', 's', 'e']
  | .num n => renderInt n
  | .str s => renderString s
  | .arr .nil => ['[', ']']
  | .arr (.cons j js) => '[' :: (j.render ++ js.renderTail)
  | .obj .nil => ['{', '}']
  | .obj (.cons k j rest) => '{' :: (renderString k ++ ':' :: (j.render ++ rest.renderTail))
/-- The remaining elements of an array, each after a comma, and the closing
bracket. -/
def JsonList.renderTail : JsonList → List Char
  | .nil => [']']
  | .cons j js => ',' :: (j.render ++ js.renderTail)
/-- The remaining members of an object, each after a comma, and the closing
brace. -/
def JsonMembers.renderTail : JsonMembers → List Char
  | .nil => ['}']
  | .cons k j rest => ',' :: (renderString k ++ ':' :: (j.render ++ rest.renderTail))
end

/-- The function `json.Marshal`: the text of the marshalled document. -/
def encodeJSON (v : GoValue) : Except Error (List Char) :=
  match marshal v with
  | .ok j => .ok j.render
  | .error e => .error e

/-- What `json.NewEncoder(buf).Encode(v)` leaves in a fresh buffer: the text
and a newline on success, nothing on failure. -/
def encoderOutput (v : GoValue) : List Char :=
  match encodeJSON v with
  | .ok text => text ++ ['\n']
  | .error _ => []

/-- JSON insignificant whitespace. -/
def isWs (c : Char) : Bool :=
  c = ' ' || c = '\n' || c = '\r' || c = '\t'

/-- Drop leading whitespace. -/
def skipWs : List Char → List Char
  | [] => []
  | c :: cs => if isWs c then skipWs cs else c :: cs

/-- The value of a hexadecimal digit. -/
def hexVal (c : Char) : Option Nat :=
  if 48 ≤ c.toNat ∧ c.toNat ≤ 57 then some (c.toNat - 48)
  else if 97 ≤ c.toNat ∧ c.toNat ≤ 102 then some (c.toNat - 87)
  else if 65 ≤ c.toNat ∧ c.toNat ≤ 70 then some (c.toNat - 55)
  else none

/-- Put a decoded character in front of the rest of a decoded string. -/
def consChar (c : Char) : Option (List Char × List Char) → Option (List Char × List Char)
  | some (s, rest) => some (c :: s, rest)
  | none => none

/-- The character a one-letter escape stands for. -/
def unescape (c : Char) : Option Char :=
  if c = '"' then some '"'
  else if c = '\\' then some '\\'
  else if c = '/' then some '/'
  else if c = 'b' then some (Char.ofNat 8)
  else if c = 'f' then some (Char.ofNat 12)
  else if c = 'n' then some '\n'
  else if c = 'r' then some '\r'
  else if c = 't' then some '\t'
  else none

/-- The code point of a `\u` escape with the four given hexadecimal digits;
a surrogate code unit is not supported by this reader. -/
def unicodeEscape (a b c d : Char) : Option Char :=
  match hexVal a, hexVal b, hexVal c, hexVal d with
  | some x, some y, some z, some w =>
    if 55296 ≤ ((x * 16 + y) * 16 + z) * 16 + w ∧ ((x * 16 + y) * 16 + z) * 16 + w ≤ 57343
    then none
    else some (Char.ofNat (((x * 16 + y) * 16 + z) * 16 + w))
  | _, _, _, _ => none

/-- Read a string literal after its opening quote: the decoded characters and
the input after the closing quote. -/
def parseStringBody : List Char → Option (List Char × List Char)
  | [] => none
  | c :: rest =>
    if c = '"' then some ([], rest)
    else if c = '\\' then
      match rest with
      | 'u' :: a :: b :: c :: d :: rest' =>
        match unicodeEscape a b c d with
        | some x => consChar x (parseStringBody rest')
        | none => none
      | e :: rest' =>
        match unescape e with
        | some x => consChar x (parseStringBody rest')
        | none => none
      | [] => none
    else if c.toNat < 32 then none
    else consChar c (parseStringBody rest)

/-- The longest prefix of decimal digits, and what follows it. -/
def takeDigits : List Char → List Char × List Char
  | [] => ([], [])
  | c :: cs =>
    if c.isDigit then ((takeDigits cs).1.cons c, (takeDigits cs).2)
    else ([], c :: cs)

/-- Whether the input begins with a decimal digit. -/
def startsWithDigit : List Char → Bool
  | [] => false
  | c :: _ => c.isDigit

/-- The number a sequence of decimal digits denotes. -/
def parseNat (ds : List Char) : Nat :=
  ds.foldl (fun acc c => acc * 10 + (c.toNat - 48)) 0

/-- Read an integer literal: an optional minus sign and at least one digit. -/
def parseNumber : List Char → Option (Int × List Char)
  | [] => none
  | c :: rest =>
    if c = '-' then
      match takeDigits rest with
      | ([], _) => none
      | (ds, rest') => some (-(parseNat ds : Int), rest')
    else
      match takeDigits (c :: rest) with
      | ([], _) => none
      | (ds, rest') => some ((parseNat ds : Int), rest')

mutual
/-- Read one JSON value and return it with the unread input. `fuel` bounds
the nesting and the number of elements; the length of the input is enough. -/
def parseValue : Nat → List Char → Option (Json × List Char)
  | 0, _ => none
  | fuel + 1, input =>
    match skipWs input with
    | [] => none
    | c :: rest =>
      if c = 'n' then
        match rest with
        | 'u' :: 'l' :: 'l' :: rest' => some (.null, rest')
        | _ => none
      else if c = 't' then
        match rest with
        | 'r' :: 'u' :: 'e' :: rest' => some (.bool true, rest')
        | _ => none
      else if c = 'f' then
        match rest with
        | 'a' :: 'l' :: 's' :: 'e' :: rest' => some (.bool false, rest')
        | _ => none
      else if c = '"' then
        match parseStringBody rest with
        | some (s, rest') => some (.str (String.mk s), rest')
        | none => none
      else if c = '[' then
        match skipWs rest with
        | ']' :: rest' => some (.arr .nil, rest')
        | _ =>
          match parseElems fuel rest with
          | some (js, rest') => some (.arr js, rest')
          | none => none
      else if c = '{' then
        match skipWs rest with
        | '}' :: rest' => some (.obj .nil, rest')
        | _ =>
          match parseMembers fuel rest with
          | some (ms, rest') => some (.obj ms, rest')
          | none => none
      else
        match parseNumber (c :: rest) with
        | some (n, rest') => some (.num n, rest')
        | none => none
/-- Read the elements of a non-empty array, up to and including `]`. -/
def parseElems : Nat → List Char → Option (JsonList × List Char)
  | 0, _ => none
  | fuel + 1, input =>
    match parseValue fuel input with
    | none => none
    | some (j, rest) =>
      match skipWs rest with
      | ',' :: rest' =>
        match parseElems fuel rest' with
        | some (js, rest'') => some (.cons j js, rest'')
        | none => none
      | ']' :: rest' => some (.cons j .nil, rest')
      | _ => none
/-- Read the members of a non-empty object, up to and including `}`. -/
def parseMembers : Nat → List Char → Option (JsonMembers × List Char)
  | 0, _ => none
  | fuel + 1, input =>
    match skipWs input with
    | '"' :: rest =>
      match parseStringBody rest with
      | none => none
      | some (k, rest1) =>
        match skipWs rest1 with
        | ':' :: rest2 =>
          match parseValue fuel rest2 with
          | none => none
          | some (j, rest3) =>
            match skipWs rest3 with
            | ',' :: rest4 =>
              match parseMembers fuel rest4 with
              | some (ms, rest5) => some (.cons (String.mk k) j ms, rest5)
              | none => none
            | '}' :: rest4 => some (.cons (String.mk k) j .nil, rest4)
            | _ => none
        | _ => none
    | _ => none
end

/-- Read a complete JSON text: one value, then only whitespace. -/
def parseJSON (text : List Char) : Option Json :=
  match parseValue (text.length + 1) text with
  | some (j, rest) => if skipWs rest = [] then some j else none
  | none => none

/-- Build a `JsonList` from a list. -/
def JsonList.ofList : List Json → JsonList
  | [] => .nil
  | j :: js => .cons j (JsonList.ofList js)

/-- The JSON object of an expanded run-list item: its four members in
declaration order, `version` being `null` for a nil pointer. -/
def expandedRunListItem.toJson (e : expandedRunListItem) : Json :=
  .obj (.cons "type" (.str e.ItemType) (.cons "name" (.str e.Name)
    (.cons "version" (match e.Version with
                      | none => .null
                      | some v => .str v)
      (.cons "skipped" (.bool e.Skipped) .nil))))

/-- The statement that a document is read back from its text, whatever
follows the text (short of a digit) and with any fuel above its length. -/
def ReadsBack (j : Json) : Prop :=
  ∀ (n : Nat) (rest : List Char), startsWithDigit rest = false → j.render.length < n →
    parseValue n (j.render ++ rest) = some (j, rest)

/-! ## `net/url` and `net/http` -/

/-- A `url.URL`, identified by its string form. -/
structure URL where
  text : String
  deriving DecidableEq, Repr

/-- The method `URL.String`. -/
def URL.String (u : URL) : String := u.text

/-- The bytes `textproto` accepts in a header field name. -/
def isTokenChar (c : Char) : Bool :=
  c.isAlphanum || "!#$%&*+-.^_|~".toList.contains c || c = Char.ofNat 39 || c = Char.ofNat 96

/-- The letter-case pass of `CanonicalMIMEHeaderKey`: upper case at the start
and after a hyphen, lower case elsewhere. -/
def canonicalCase (upper : Bool) : List Char → List Char
  | [] => []
  | c :: cs => (if upper then c.toUpper else c.toLower) :: canonicalCase (c = '-') cs

/-- The function `textproto.CanonicalMIMEHeaderKey`: a name with a byte that
is not a token character is returned unchanged. -/
def CanonicalMIMEHeaderKey (s : String) : String :=
  if s.toList.all isTokenChar then String.mk (canonicalCase true s.toList) else s

/-- A `http.Header`, one value per canonical field name. -/
abbrev Header := List (String × String)

/-- The method `Header.Set`: replace whatever the canonical name held. -/
def Header.Set (h : Header) (key value : String) : Header :=
  (CanonicalMIMEHeaderKey key, value) :: h.filter (fun kv => kv.1 ≠ CanonicalMIMEHeaderKey key)

/-- The method `Header.Get`: the value under the canonical name, or `""`. -/
def Header.Get (h : Header) (key : String) : String :=
  match h.lookup (CanonicalMIMEHeaderKey key) with
  | some v => v
  | none => ""

/-- A `http.Request`, with the fields `Update` sets. -/
structure Request where
  Method : String
  URL : URL
  Header : Header
  Body : List Char
  deriving DecidableEq, Repr

/-- A `http.Response`, reduced to its status code. -/
structure Response where
  StatusCode : Nat
  deriving DecidableEq, Repr

/-- A `http.Client`, with the two settings `NewDataCollectorClient` makes:
`Transport.TLSClientConfig.InsecureSkipVerify` and `Timeout` (a
`time.Duration`, in nanoseconds). -/
structure HTTPClient where
  InsecureSkipVerify : Bool
  Timeout : Int
  deriving DecidableEq, Repr

/-- The type `DataCollectorConfig`; `Timeout` is a `time.Duration`, an
`int64`. -/
structure DataCollectorConfig where
  Token : String
  URL : String
  SkipSSL : Bool
  Timeout : Int
  deriving DecidableEq, Repr

/-- The type `DataCollectorClient`; `Client` is a `*http.Client` and `URL` a
`*url.URL`, `none` when nil. -/
structure DataCollectorClient where
  Client : Option HTTPClient
  Token : String
  URL : Option URL
  deriving DecidableEq, Repr

/-- The code `data-collector.go` calls but does not contain: `url.Parse`,
the round trip `(*http.Client).Do`, which yields a response, an error, or
both, and the method `toStringSlice` of the run list. -/
structure Externals where
  parseURL : String → Except Error URL
  Do : HTTPClient → Request → Option Response × Option Error
  toStringSlice : runList → Slice String

/-- The constant `time.Second`, in nanoseconds. -/
def Second : Int := 1000000000

/-- The function `NewDataCollectorClient`. The error of `url.Parse` is
dropped (on failure `url.Parse` returns a nil URL), the product
`cfg.Timeout * time.Second` is an `int64` product, and the result is always
a client with a nil error. -/
def NewDataCollectorClient (ext : Externals) (cfg : DataCollectorConfig) :
    DataCollectorClient × Option Error :=
  let URL : Option URL :=
    match ext.parseURL cfg.URL with
    | .ok u => some u
    | .error _ => none
  let c : DataCollectorClient :=
    { Client := some { InsecureSkipVerify := cfg.SkipSSL,
                       Timeout := wrapInt64 (cfg.Timeout * Second) },
      URL := URL,
      Token := cfg.Token }
  (c, none)

/-- The function `http.NewRequest` for a valid method: it parses the URL
text and fails when that fails. -/
def NewRequest (ext : Externals) (method url : String) (body : List Char) :
    Except Error Request :=
  match ext.parseURL url with
  | .error e => .error e
  | .ok u => .ok { Method := method, URL := u, Header := [], Body := body }

/-- A `map[string]interface{}`: the nil map or a map with entries. -/
inductive GoMap where
  | nil : GoMap
  | mk (entries : GoFields) : GoMap

/-- How `encoding/json` sees a map: the nil map encodes as `null`. -/
def GoMap.toGo : GoMap → GoValue
  | .nil => .null
  | .mk entries => .map entries

/-- Map index expression `m[k]` on a map that may be nil. -/
def GoMap.lookup (k : String) : GoMap → Option GoValue
  | .nil => none
  | .mk entries => entries.lookup k

/-- How a call ends: with a run-time panic, or by returning an `error`
(`none` for nil). -/
inductive Outcome where
  | panic : Outcome
  | returned (err : Option Error) : Outcome
  deriving DecidableEq, Repr

/-- What a call of `Update` does: the requests it hands to `Client.Do`, the
responses whose body it closes, and how it ends. -/
structure UpdateResult where
  sent : List Request
  closed : List Response
  outcome : Outcome
  deriving DecidableEq, Repr

/-- The method `DataCollectorClient.Update`, on a non-nil receiver. The error
of `Encode` is overwritten unread; `dcc.URL.String()` dereferences `dcc.URL`
and `dcc.Client.Do` dereferences `dcc.Client`, so a nil pointer there is a
run-time panic. -/
def DataCollectorClient.Update (ext : Externals) (dcc : DataCollectorClient)
    (body : GoMap) : UpdateResult :=
  let buf := encoderOutput body.toGo
  match dcc.URL with
  | none => { sent := [], closed := [], outcome := .panic }
  | some u =>
    match NewRequest ext "POST" u.String buf with
    | .error err => { sent := [], closed := [], outcome := .returned (some err) }
    | .ok req =>
      let req := { req with Header := req.Header.Set "Content-Type" "application/json" }
      let req := { req with Header := req.Header.Set "x-data-collector-auth" "version=1.0" }
      let req := { req with Header := req.Header.Set "x-data-collector-token" dcc.Token }
      match dcc.Client with
      | none => { sent := [], closed := [], outcome := .panic }
      | some client =>
        let (res, err) := ext.Do client req
        { sent := [req],
          closed := match res with
                    | some r => [r]
                    | none => [],
          outcome := .returned err }

/-! ## Redirects inside `Client.Do` -/

/-- A request as `http.Client` sends it to a server; the headers of follow-up
requests are not modelled. -/
structure WireRequest where
  Method : String
  URL : URL
  Body : List Char
  deriving DecidableEq, Repr

/-- The request that `Client.Do` sends first: the one it was handed. -/
def Request.onWire (req : Request) : WireRequest :=
  { Method := req.Method, URL := req.URL, Body := req.Body }

/-- A server's answer as the redirect logic of `http.Client` reads it: the
status code and the `Location` header, `""` when there is none. -/
structure ServerResponse where
  StatusCode : Nat
  Location : String
  deriving DecidableEq, Repr

/-- A server behind its network: the answer to a request, or a transport
error when no answer arrives. -/
abbrev Server := WireRequest → Except Error ServerResponse

/-- The function `redirectBehavior` of `net/http`, for a request whose body
can be sent again (as one built by `http.NewRequest` from a `bytes.Reader`
can): after 301, 302 and 303 the method becomes GET unless it is GET or HEAD,
and the body is dropped; after 307 and 308 method and body are kept; any
other status is no redirect. The result is the next method and whether the
body is kept. -/
def redirectBehavior (method : String) (status : Nat) : Option (String × Bool) :=
  if status = 301 ∨ status = 302 ∨ status = 303 then
    some (if method ≠ "GET" ∧ method ≠ "HEAD" then "GET" else method, false)
  else if status = 307 ∨ status = 308 then some (method, true)
  else none

/-- What a call of `Client.Do` does: the requests a server answered, in
order, and the response and error it returns. -/
structure DoResult where
  answered : List WireRequest
  result : Option Response × Option Error
  deriving DecidableEq, Repr

/-- The method `(*http.Client).Do` of a client without a `CheckRedirect`
function, as the client of `NewDataCollectorClient` is: it sends the request
and follows redirects, up to ten requests in all. `allowed` counts the
requests it may still send, ten at the start. A `Location` is taken to be an
absolute URL. -/
def clientDo (parseURL : String → Except Error URL) (server : Server) :
    Nat → WireRequest → DoResult
  | 0, _ => { answered := [], result := (none, some "stopped after 10 redirects") }
  | allowed + 1, req =>
    match server req with
    | .error e => { answered := [], result := (none, some e) }
    | .ok resp =>
      match redirectBehavior req.Method resp.StatusCode with
      | none => { answered := [req], result := (some ⟨resp.StatusCode⟩, none) }
      | some (method, keepBody) =>
        if resp.Location = "" then
          { answered := [req], result := (some ⟨resp.StatusCode⟩, none) }
        else
          match parseURL resp.Location with
          | .error e => { answered := [req], result := (none, some e) }
          | .ok u =>
            if allowed = 0 then
              { answered := [req],
                result := (some ⟨resp.StatusCode⟩, some "stopped after 10 redirects") }
            else
              let next := clientDo parseURL server allowed
                { Method := method, URL := u, Body := if keepBody then req.Body else [] }
              { answered := req :: next.answered, result := next.result }

/-! ## The two emitters -/

/-- The fields of `chefLoadConfig` that `data-collector.go` reads. -/
structure chefLoadConfig where
  ChefServerURL : String
  ChefEnvironment : String
  DataCollectorURL : String
  DataCollectorToken : String
  deriving DecidableEq, Repr

/-- What a call of an emitter does: the lines it prints, and the call of
`Update` whose result it returns. -/
structure RunResult where
  printed : List String
  update : UpdateResult
  deriving DecidableEq, Repr

/-- The map `msgBody` of `dataCollectorRunStart`. -/
def runStartBody (nodeName orgName : String) (runUUID nodeUUID : UUID)
    (startTime : Time) (config : chefLoadConfig) : GoFields :=
  GoFields.ofList
    [ ("chef_server_fqdn", .string config.ChefServerURL),
      ("entity_uuid", .string nodeUUID.String),
      ("id", .string runUUID.String),
      ("message_version", .string "1.0.0"),
      ("message_type", .string "run_start"),
      ("node_name", .string nodeName),
      ("organization", .string orgName),
      ("run_id", .string runUUID.String),
      ("source", .string "chef_client"),
      ("start_time", .string (startTime.Format iso8601DateTime)) ]

/-- The line `fmt.Printf` writes in the error branch of an emitter. -/
def creationErrorLine (err : Error) : String :=
  "Error creating DataCollectorClient: " ++ err ++ " \n"

/-- The function `dataCollectorRunStart`. -/
def dataCollectorRunStart (ext : Externals) (nodeName orgName : String)
    (runUUID nodeUUID : UUID) (startTime : Time) (config : chefLoadConfig) : RunResult :=
  let msgBody := runStartBody nodeName orgName runUUID nodeUUID startTime config
  let (client, err) := NewDataCollectorClient ext
    { Token := config.DataCollectorToken, URL := config.DataCollectorURL,
      SkipSSL := true, Timeout := 0 }
  let printed := match err with
    | some e => [creationErrorLine e]
    | none => []
  { printed := printed, update := client.Update ext (.mk msgBody) }

/-- The map `expandedRunListMap` of `dataCollectorRunStop`. -/
def expandedRunListMap (expandedRunList : runList) (config : chefLoadConfig) : GoFields :=
  GoFields.ofList
    [ ("id", .string config.ChefEnvironment),
      ("run_list", (expandRunList expandedRunList).toGo expandedRunListItem.toGo) ]

/-- The map `msgBody` of `dataCollectorRunStop`; `node` is the `chef.Node`
as `encoding/json` sees it. -/
def runStopBody (ext : Externals) (node : GoValue) (nodeName orgName : String)
    (runList expandedRunList : ChefLoad.runList) (runUUID nodeUUID : UUID)
    (startTime endTime : Time) (config : chefLoadConfig) : GoFields :=
  GoFields.ofList
    [ ("chef_server_fqdn", .string config.ChefServerURL),
      ("entity_uuid", .string nodeUUID.String),
      ("id", .string runUUID.String),
      ("message_version", .string "1.0.0"),
      ("message_type", .string "run_converge"),
      ("node_name", .string nodeName),
      ("organization", .string orgName),
      ("run_id", .string runUUID.String),
      ("source", .string "chef_client"),
      ("start_time", .string (startTime.Format iso8601DateTime)),
      ("end_time", .string (endTime.Format iso8601DateTime)),
      ("status", .string "success"),
      ("run_list", (ext.toStringSlice runList).toGo GoValue.string),
      ("expanded_run_list", .map (expandedRunListMap expandedRunList config)),
      ("node", node),
      ("resources", .array .nil),
      ("total_resource_count", .int 0),
      ("updated_resource_count", .int 0) ]

/-- The function `dataCollectorRunStop`. -/
def dataCollectorRunStop (ext : Externals) (node : GoValue) (nodeName orgName : String)
    (runList expandedRunList : ChefLoad.runList) (runUUID nodeUUID : UUID)
    (startTime endTime : Time) (config : chefLoadConfig) : RunResult :=
  let msgBody := runStopBody ext node nodeName orgName runList expandedRunList
    runUUID nodeUUID startTime endTime config
  let (client, err) := NewDataCollectorClient ext
    { Token := config.DataCollectorToken, URL := config.DataCollectorURL,
      SkipSSL := true, Timeout := 0 }
  let printed := match err with
    | some e => [creationErrorLine e]
    | none => []
  { printed := printed, update := client.Update ext (.mk msgBody) }

/-! ## Sample inputs for concrete evaluations -/

/-- A sample environment: `url.Parse` rejects a text with a control
character and otherwise returns the URL with that text, every round trip is
answered with status 500 and no transport error, and a run list is rendered
by the names of its items. -/
def sampleExternals : Externals where
  parseURL := fun s =>
    if s.toList.any (fun c => c.toNat < 32 || c.toNat = 127) then
      .error "net/url: invalid control character in URL"
    else .ok ⟨s⟩
  Do := fun _ _ => (some ⟨500⟩, none)
  toStringSlice := fun rl => .mk (rl.map (fun item => item.name))

/-- The sample environment with a transport that fails with a timeout. -/
def timeoutExternals : Externals :=
  { sampleExternals with Do := fun _ _ => (none, some "context deadline exceeded") }

/-- A server that answers a POST to `/events` with a 307 redirect to
`/v2/events`, and everything else with 200. -/
def redirectingServer : Server := fun req =>
  if req.URL = ⟨"https://dc.example.com/events"⟩ then
    .ok { StatusCode := 307, Location := "https://dc.example.com/v2/events" }
  else .ok { StatusCode := 200, Location := "" }

/-- The sample environment in front of the redirecting server: `Client.Do` is
the redirect-following client. -/
def redirectExternals : Externals :=
  { sampleExternals with
    Do := fun _ req =>
      (clientDo sampleExternals.parseURL redirectingServer 10 req.onWire).result }

/-- A client as `NewDataCollectorClient` builds it for the emitters. -/
def sampleClient : DataCollectorClient :=
  { Client := some { InsecureSkipVerify := true, Timeout := 0 },
    Token := "secret",
    URL := some ⟨"https://dc.example.com/events"⟩ }

/-- The request `sampleClient` makes of the empty, non-nil payload. -/
def sampleRequest : Request :=
  { Method := "POST", URL := ⟨"https://dc.example.com/events"⟩,
    Header := [("X-Data-Collector-Token", "secret"),
               ("X-Data-Collector-Auth", "version=1.0"),
               ("Content-Type", "application/json")],
    Body := ['{', '}', '\n'] }

/-- The UUID `11111111-1111-1111-1111-111111111111`. -/
def sampleUUID : UUID := ⟨fun _ => 17⟩

/-- A sample run configuration. -/
def sampleConfig : chefLoadConfig :=
  { ChefServerURL := "https://chef.example.com", ChefEnvironment := "_default",
    DataCollectorURL := "https://dc.example.com/events", DataCollectorToken := "secret" }

/-- The run-list item of the spec's scenario: no version pinned. -/
def unpinnedItem : runListItem := { name := "recipe[a]", itemType := "recipe", version := "" }

/-- A run-list item with a pinned version. -/
def pinnedItem : runListItem := { name := "recipe[b]", itemType := "recipe", version := "1.2.3" }

/-! ## The run-list transform -/

theorem foldl_append_toList (l : runList) (acc : Slice expandedRunListItem) :
    (l.foldl (fun items item => items.append (expandItem item)) acc).toList =
      acc.toList ++ l.map expandItem := by
  induction l generalizing acc with
  | nil => simp
  | cons x xs ih =>
    rw [List.foldl_cons, ih]
    simp [Slice.append, Slice.toList]

theorem expandRunList_toList (l : runList) :
    (expandRunList l).toList = l.map expandItem := by
  rw [expandRunList, foldl_append_toList]
  simp [Slice.toList]

/-- C1: for every expanded run list and every item in it, the record built for
the item has `Version` present and equal to the item's version when that is
non-empty, and absent (nil) when it is empty; it is never a present empty
string. -/
theorem expandRunList_version (expandedRunList : runList) (i : Nat) (item : runListItem)
    (h : expandedRunList[i]? = some item) :
    ∃ erli, (expandRunList expandedRunList).toList[i]? = some erli ∧
      (item.version ≠ "" → erli.Version = some item.version) ∧
      (item.version = "" → erli.Version = none) ∧
      erli.Version ≠ some "" := by
  refine ⟨expandItem item, ?_, ?_, ?_, ?_⟩
  · simp [expandRunList_toList, h]
  · intro hv; simp [expandItem, hv]
  · intro hv; simp [expandItem, hv]
  · by_cases hv : item.version = ""
    · simp [expandItem, hv]
    · simp [expandItem, hv]

theorem expandRunList_version_witness :
    [unpinnedItem, pinnedItem][1]? = some pinnedItem ∧
    ∃ erli, (expandRunList [unpinnedItem, pinnedItem]).toList[1]? = some erli ∧
      (pinnedItem.version ≠ "" → erli.Version = some pinnedItem.version) ∧
      (pinnedItem.version = "" → erli.Version = none) ∧
      erli.Version ≠ some "" :=
  ⟨rfl, expandRunList_version [unpinnedItem, pinnedItem] 1 pinnedItem rfl⟩

/-- C9: the records built from an expanded run list are as many as its items,
and the i-th record has the i-th item's name and item type and `Skipped`
false: order is kept, nothing is dropped, nothing is added. -/
theorem expandRunList_preserves (expandedRunList : runList) :
    (expandRunList expandedRunList).toList.length = expandedRunList.length ∧
    ∀ (i : Nat) (item : runListItem), expandedRunList[i]? = some item →
      ∃ erli, (expandRunList expandedRunList).toList[i]? = some erli ∧
        erli.Name = item.name ∧ erli.ItemType = item.itemType ∧ erli.Skipped = false := by
  refine ⟨by simp [expandRunList_toList], ?_⟩
  intro i item h
  refine ⟨expandItem item, by simp [expandRunList_toList, h], ?_, ?_, ?_⟩ <;>
    (unfold expandItem; split <;> rfl)

/-! ## The payload maps -/

/-- C4: the payload maps built by `dataCollectorRunStart` and
`dataCollectorRunStop` are the maps handed to `Update`, and each holds
`message_version` = "1.0.0", `source` = "chef_client", `id` and `run_id` = the
string form of the run UUID, `entity_uuid` = the string form of the node
UUID, `organization` = the organization name, and `message_type` =
"run_start" and "run_converge" respectively. -/
theorem payload_identity_fields (ext : Externals) (node : GoValue) (nodeName orgName : String)
    (rl expandedRunList : runList) (runUUID nodeUUID : UUID) (startTime endTime : Time)
    (config : chefLoadConfig) :
    (∃ client : DataCollectorClient,
      (dataCollectorRunStart ext nodeName orgName runUUID nodeUUID startTime config).update =
        client.Update ext
          (.mk (runStartBody nodeName orgName runUUID nodeUUID startTime config)) ∧
      (dataCollectorRunStop ext node nodeName orgName rl expandedRunList runUUID nodeUUID
          startTime endTime config).update =
        client.Update ext
          (.mk (runStopBody ext node nodeName orgName rl expandedRunList runUUID nodeUUID
            startTime endTime config))) ∧
    (∀ body : GoFields,
      (body = runStartBody nodeName orgName runUUID nodeUUID startTime config ∨
       body = runStopBody ext node nodeName orgName rl expandedRunList runUUID nodeUUID
          startTime endTime config) →
      body.lookup "message_version" = some (.string "1.0.0") ∧
      body.lookup "source" = some (.string "chef_client") ∧
      body.lookup "id" = some (.string runUUID.String) ∧
      body.lookup "run_id" = some (.string runUUID.String) ∧
      body.lookup "entity_uuid" = some (.string nodeUUID.String) ∧
      body.lookup "organization" = some (.string orgName)) ∧
    (runStartBody nodeName orgName runUUID nodeUUID startTime config).lookup "message_type" =
      some (.string "run_start") ∧
    (runStopBody ext node nodeName orgName rl expandedRunList runUUID nodeUUID
      startTime endTime config).lookup "message_type" = some (.string "run_converge") := by
  refine ⟨⟨_, rfl, rfl⟩, ?_, ?_, ?_⟩
  · rintro body (rfl | rfl) <;>
      simp [runStartBody, runStopBody, GoFields.ofList, GoFields.lookup]
  · simp [runStartBody, GoFields.ofList, GoFields.lookup]
  · simp [runStopBody, GoFields.ofList, GoFields.lookup]

/-! ## The transport client -/

/-- C5: whenever `Update` hands a request to the round trip, it returns what
the round trip reports: no error when a response comes back without a
transport error, whatever its status code, and exactly the transport error
when there is one. -/
theorem Update_returns_transport_error (ext : Externals) (dcc : DataCollectorClient)
    (body : GoMap) (req : Request) (h : req ∈ (dcc.Update ext body).sent) :
    ∃ client : HTTPClient, dcc.Client = some client ∧
      (∀ res : Response, ext.Do client req = (some res, none) →
        (dcc.Update ext body).outcome = .returned none) ∧
      (∀ (res : Option Response) (e : Error), ext.Do client req = (res, some e) →
        (dcc.Update ext body).outcome = .returned (some e)) := by
  unfold DataCollectorClient.Update at h ⊢
  cases hu : dcc.URL with
  | none => simp [hu] at h
  | some u =>
    simp only [hu] at h ⊢
    cases hr : NewRequest ext "POST" u.String (encoderOutput body.toGo) with
    | error e => simp [hr] at h
    | ok r =>
      cases hc : dcc.Client with
      | none => simp [hr, hc] at h
      | some client =>
        simp only [hr, hc, List.mem_singleton] at h ⊢
        subst h
        refine ⟨client, rfl, ?_, ?_⟩
        · intro res hd; simp [hd]
        · intro res e hd; simp [hd]

theorem Update_returns_transport_error_witness :
    (sampleRequest ∈ (sampleClient.Update sampleExternals (.mk .nil)).sent ∧
      sampleExternals.Do ⟨true, 0⟩ sampleRequest = (some ⟨500⟩, none) ∧
      (sampleClient.Update sampleExternals (.mk .nil)).outcome = .returned none) ∧
    (sampleRequest ∈ (sampleClient.Update timeoutExternals (.mk .nil)).sent ∧
      timeoutExternals.Do ⟨true, 0⟩ sampleRequest = (none, some "context deadline exceeded") ∧
      (sampleClient.Update timeoutExternals (.mk .nil)).outcome =
        .returned (some "context deadline exceeded")) := by
  constructor
  · obtain ⟨client, hc, h1, _⟩ := Update_returns_transport_error sampleExternals sampleClient
      (.mk .nil) sampleRequest (by decide)
    exact ⟨by decide, rfl, h1 ⟨500⟩ rfl⟩
  · obtain ⟨client, hc, _, h2⟩ := Update_returns_transport_error timeoutExternals sampleClient
      (.mk .nil) sampleRequest (by decide)
    exact ⟨by decide, rfl, h2 none _ rfl⟩

/-- C8: `NewDataCollectorClient` always returns a client and a nil error; the
client's URL is the parse result, nil when parsing fails, and its Token is
the configured token. So the error branch of the two emitters is never
taken: they print nothing. -/
theorem NewDataCollectorClient_never_fails (ext : Externals) (cfg : DataCollectorConfig) :
    (NewDataCollectorClient ext cfg).2 = none ∧
    (NewDataCollectorClient ext cfg).1.Client.isSome = true ∧
    (NewDataCollectorClient ext cfg).1.Token = cfg.Token ∧
    (∀ e, ext.parseURL cfg.URL = .error e → (NewDataCollectorClient ext cfg).1.URL = none) ∧
    (∀ u, ext.parseURL cfg.URL = .ok u → (NewDataCollectorClient ext cfg).1.URL = some u) ∧
    (∀ nodeName orgName runUUID nodeUUID startTime config,
      (dataCollectorRunStart ext nodeName orgName runUUID nodeUUID startTime config).printed
        = []) ∧
    (∀ node nodeName orgName rl expandedRunList runUUID nodeUUID startTime endTime config,
      (dataCollectorRunStop ext node nodeName orgName rl expandedRunList runUUID nodeUUID
        startTime endTime config).printed = []) := by
  refine ⟨rfl, rfl, rfl, ?_, ?_, ?_, ?_⟩
  · intro e he; simp [NewDataCollectorClient, he]
  · intro u hu; simp [NewDataCollectorClient, hu]
  · intros; rfl
  · intros; rfl

/-- C7 (as stated, refuted): with `cfg.Timeout` = 2^62, a value an `int64`
holds, the client's Timeout is 0, not 2^62 * 1,000,000,000. -/
theorem NewDataCollectorClient_timeout_overflow :
    -(2 : Int) ^ 63 ≤ 2 ^ 62 ∧ (2 : Int) ^ 62 < 2 ^ 63 ∧
    (NewDataCollectorClient sampleExternals
      { Token := "", URL := "", SkipSSL := false, Timeout := 2 ^ 62 }).1.Client =
        some { InsecureSkipVerify := false, Timeout := 0 } ∧
    (0 : Int) ≠ 2 ^ 62 * 1000000000 := by
  refine ⟨by decide, by decide, ?_, by decide⟩
  simp [NewDataCollectorClient, wrapInt64, Second]

/-- C7 (amended): the client's Timeout is the `int64` product
`cfg.Timeout * time.Second`, that is, the exact product reduced modulo 2^64
into the `int64` range; it equals the exact product of `cfg.Timeout` and
1,000,000,000 exactly when -9223372036 ≤ cfg.Timeout ≤ 9223372036. -/
theorem NewDataCollectorClient_timeout (ext : Externals) (cfg : DataCollectorConfig) :
    ∃ client : HTTPClient, (NewDataCollectorClient ext cfg).1.Client = some client ∧
      client.Timeout = wrapInt64 (cfg.Timeout * 1000000000) ∧
      -(2 : Int) ^ 63 ≤ client.Timeout ∧ client.Timeout < 2 ^ 63 ∧
      (client.Timeout - cfg.Timeout * 1000000000) % 2 ^ 64 = 0 ∧
      (client.Timeout = cfg.Timeout * 1000000000 ↔
        -9223372036 ≤ cfg.Timeout ∧ cfg.Timeout ≤ 9223372036) := by
  refine ⟨_, rfl, ?_⟩
  simp only [wrapInt64, Second]
  norm_num
  refine ⟨?_, ?_, ?_, ?_⟩ <;> omega

/-! ## Timestamps -/

theorem formatLayout_iso8601 (c : Civil) :
    formatLayout c iso8601DateTime.toList =
      appendInt c.year 4 ++ '-' :: (appendInt c.month 2 ++ '-' :: (appendInt c.day 2 ++
        'T' :: (appendInt c.hour 2 ++ ':' :: (appendInt c.minute 2 ++ ':' ::
          (appendInt c.second 2 ++ ['Z']))))) := by
  rfl

theorem Format_iso8601 (t : Time) :
    t.Format iso8601DateTime = wallClockText t.civil := by
  unfold Time.Format wallClockText
  rw [formatLayout_iso8601]
  simp

theorem Time.civil_of_range (t : Time)
    (h : -9223372028715321600 ≤ t.unix + t.offset ∧
      t.unix + t.offset < 9223372036854775808) :
    t.civil = civilOfSeconds (t.unix + t.offset) := by
  have e : t.abs - unixToAbsolute = t.unix + t.offset := by
    simp only [Time.abs, wrapInt64, unixToAbsolute]
    omega
  rw [Time.civil, e]

/-! ### The date computation against the calendar -/

theorem dayOfYear_bounds (doe yoe doy : Int) (hdoe : 0 ≤ doe ∧ doe < 146097)
    (h3 : yoe = (doe - doe / 1460 + doe / 36524 - doe / 146096) / 365)
    (h4 : doy = doe - (365 * yoe + yoe / 4 - yoe / 100)) :
    0 ≤ yoe ∧ yoe ≤ 399 ∧ 0 ≤ doy ∧ doy ≤ 365 ∧
      (doy = 365 → (yoe + 1) % 4 = 0 ∧ ((yoe + 1) % 100 ≠ 0 ∨ yoe = 399)) := by
  by_cases hlast : doe = 146096
  · subst hlast
    have : yoe = 399 := by rw [h3]; norm_num
    subst this
    norm_num at h4
    subst h4
    norm_num
  have hc : doe / 36524 = 0 ∨ doe / 36524 = 1 ∨ doe / 36524 = 2 ∨ doe / 36524 = 3 := by omega
  have he : doe / 146096 = 0 := by omega
  obtain ⟨c, hcdef⟩ : ∃ c, c = doe / 36524 := ⟨_, rfl⟩
  obtain ⟨q, hq⟩ : ∃ q, q = (doe - 36524 * c) / 1461 := ⟨_, rfl⟩
  obtain ⟨r, hr⟩ : ∃ r, r = (doe - 36524 * c) % 1461 := ⟨_, rfl⟩
  have hqr : doe = 36524 * c + 1461 * q + r ∧ 0 ≤ r ∧ r < 1461 ∧ 0 ≤ q ∧ q ≤ 24 := by omega
  have hk : r / 365 = 0 ∨ r / 365 = 1 ∨ r / 365 = 2 ∨ r / 365 = 3 ∨ r = 1460 := by omega
  rw [← hcdef] at hc h3
  rw [he] at h3
  have hb : doe / 1460 = 25 * c + q ∨ doe / 1460 = 25 * c + q + 1 := by omega
  have hyoe : yoe = 100 * c + 4 * q + r / 365 ∨ (r = 1460 ∧ yoe = 100 * c + 4 * q + 3) := by
    rcases hc with hc | hc | hc | hc <;> rcases hb with hb | hb <;>
      rcases hk with hk | hk | hk | hk | hk <;> omega
  rcases hc with hc | hc | hc | hc <;> rcases hk with hk | hk | hk | hk | hk <;>
    rcases hyoe with hy | ⟨_, hy⟩ <;> refine ⟨?_, ?_, ?_, ?_, ?_⟩ <;> omega

theorem daysBeforeYear_march (yoe era : Int) (h : 0 ≤ yoe ∧ yoe ≤ 399) :
    daysBeforeYear (yoe + era * 400) + 59 +
        (if isLeapYear (yoe + era * 400) then 1 else 0) =
      era * 146097 + (365 * yoe + yoe / 4 - yoe / 100) - 306 := by
  simp only [daysBeforeYear, isLeapYear, Bool.and_eq_true, Bool.or_eq_true,
    decide_eq_true_eq, bne_iff_ne, ne_eq]
  have hg : yoe / 100 = 0 ∨ yoe / 100 = 1 ∨ yoe / 100 = 2 ∨ yoe / 100 = 3 := by omega
  rcases hg with hg | hg | hg | hg <;> split_ifs <;> omega

theorem daysBeforeYear_january (yoe era : Int) (h : 0 ≤ yoe ∧ yoe ≤ 399) :
    daysBeforeYear (yoe + era * 400 + 1) =
      era * 146097 + (365 * yoe + yoe / 4 - yoe / 100) := by
  simp only [daysBeforeYear]
  have hg : yoe / 100 = 0 ∨ yoe / 100 = 1 ∨ yoe / 100 = 2 ∨ yoe / 100 = 3 := by omega
  rcases hg with hg | hg | hg | hg <;> omega

theorem isLeapYear_january (yoe era : Int)
    (hl : (yoe + 1) % 4 = 0 ∧ ((yoe + 1) % 100 ≠ 0 ∨ yoe = 399)) :
    isLeapYear (yoe + era * 400 + 1) = true := by
  simp only [isLeapYear, Bool.and_eq_true, Bool.or_eq_true, decide_eq_true_eq, bne_iff_ne,
    ne_eq]
  omega

theorem civil_date (days era doe yoe doy mp d m y : Int)
    (h1 : era = (days + 719468) / 146097) (h2 : doe = (days + 719468) % 146097)
    (h3 : yoe = (doe - doe / 1460 + doe / 36524 - doe / 146096) / 365)
    (h4 : doy = doe - (365 * yoe + yoe / 4 - yoe / 100))
    (h5 : mp = (5 * doy + 2) / 153)
    (h6 : d = doy - (153 * mp + 2) / 5 + 1)
    (h7 : m = if mp < 10 then mp + 3 else mp - 9)
    (h8 : y = yoe + era * 400 + (if m ≤ 2 then 1 else 0)) :
    dayNumber y m d = days ∧ 1 ≤ m ∧ m ≤ 12 ∧ 1 ≤ d ∧ d ≤ daysInMonth y m := by
  have hdoe : 0 ≤ doe ∧ doe < 146097 := by omega
  obtain ⟨hy0, hy1, hd0, hd1, hleap⟩ := dayOfYear_bounds doe yoe doy hdoe h3 h4
  have hdays : days = era * 146097 + doe - 719468 := by omega
  have hmarch := daysBeforeYear_march yoe era ⟨hy0, hy1⟩
  have hjan := daysBeforeYear_january yoe era ⟨hy0, hy1⟩
  clear h1 h2 h3 hdoe
  have hmp : mp = 0 ∨ mp = 1 ∨ mp = 2 ∨ mp = 3 ∨ mp = 4 ∨ mp = 5 ∨ mp = 6 ∨ mp = 7 ∨
      mp = 8 ∨ mp = 9 ∨ mp = 10 ∨ mp = 11 := by omega
  rcases hmp with h | h | h | h | h | h | h | h | h | h | h | h
  all_goals (subst h; norm_num at h7 h6 h5; subst h7; norm_num at h8; subst h8)
  case inr.inr.inr.inr.inr.inr.inr.inr.inr.inr.inl =>
    simp only [dayNumber, daysBeforeMonth, daysInMonth]
    norm_num
    omega
  case inr.inr.inr.inr.inr.inr.inr.inr.inr.inr.inr =>
    simp only [dayNumber, daysBeforeMonth, daysInMonth]
    norm_num
    refine ⟨by omega, by omega, ?_⟩
    by_cases hd : doy = 365
    · rw [isLeapYear_january yoe era (hleap hd)]
      simp only [if_true]
      omega
    · split_ifs <;> omega
  all_goals
    (simp only [dayNumber, daysBeforeMonth, daysInMonth]
     norm_num
     refine ⟨?_, ?_, ?_⟩ <;> (try split_ifs at hmarch ⊢) <;> omega)

theorem civilOfSeconds_isDateOf (s : Int) : (civilOfSeconds s).IsDateOf s := by
  obtain ⟨hday, hm1, hm2, hd1, hd2⟩ :=
    civil_date (s / 86400) _ _ _ _ _ (civilOfSeconds s).day (civilOfSeconds s).month
      (civilOfSeconds s).year rfl rfl rfl rfl rfl rfl rfl rfl
  refine ⟨hm1, hm2, hd1, hd2, ?_, ?_, ?_, ?_, ?_, ?_, ?_⟩
  all_goals first
    | (rw [hday]; simp only [civilOfSeconds]; omega)
    | (simp only [civilOfSeconds]; omega)

theorem daysBeforeYear_succ (y : Int) :
    daysBeforeYear (y + 1) = daysBeforeYear y + 365 + (if isLeapYear y then 1 else 0) := by
  simp only [daysBeforeYear, isLeapYear, Bool.and_eq_true, Bool.or_eq_true,
    decide_eq_true_eq, bne_iff_ne, ne_eq]
  split_ifs <;> omega

theorem daysBeforeYear_mono (y y' : Int) (h : y ≤ y') : daysBeforeYear y ≤ daysBeforeYear y' := by
  simp only [daysBeforeYear]
  omega

theorem dayOfYear_range (y m d : Int) (hm : 1 ≤ m ∧ m ≤ 12) (hd : 1 ≤ d ∧ d ≤ daysInMonth y m) :
    0 ≤ daysBeforeMonth y m + (d - 1) ∧
    daysBeforeMonth y m + (d - 1) < 365 + (if isLeapYear y then 1 else 0) := by
  obtain ⟨h1, h2⟩ := hm
  obtain ⟨h3, h4⟩ := hd
  simp only [daysBeforeMonth, daysInMonth] at *
  interval_cases m <;> norm_num at h4 ⊢ <;> (try split_ifs at h4 ⊢) <;> omega

theorem dayOfYear_inj (y m d m' d' : Int) (hm : 1 ≤ m ∧ m ≤ 12) (hd : 1 ≤ d ∧ d ≤ daysInMonth y m)
    (hm' : 1 ≤ m' ∧ m' ≤ 12) (hd' : 1 ≤ d' ∧ d' ≤ daysInMonth y m')
    (h : daysBeforeMonth y m + d = daysBeforeMonth y m' + d') : m = m' ∧ d = d' := by
  obtain ⟨h1, h2⟩ := hm
  obtain ⟨h3, h4⟩ := hd
  obtain ⟨h1', h2'⟩ := hm'
  obtain ⟨h3', h4'⟩ := hd'
  simp only [daysBeforeMonth, daysInMonth] at *
  interval_cases m <;> interval_cases m' <;> norm_num at h h4 h4' ⊢ <;>
    (try split_ifs at h h4 h4') <;> omega

theorem IsDateOf_unique (c c' : Civil) (s : Int) (h : c.IsDateOf s) (h' : c'.IsDateOf s) :
    c = c' := by
  obtain ⟨m1, m2, d1, d2, a1, a2, b1, b2, s1, s2, e⟩ := h
  obtain ⟨m1', m2', d1', d2', a1', a2', b1', b2', s1', s2', e'⟩ := h'
  have hD : dayNumber c.year c.month c.day = dayNumber c'.year c'.month c'.day := by omega
  have hh : c.hour = c'.hour := by omega
  have hmi : c.minute = c'.minute := by omega
  have hs : c.second = c'.second := by omega
  have r := dayOfYear_range c.year c.month c.day ⟨m1, m2⟩ ⟨d1, d2⟩
  have r' := dayOfYear_range c'.year c'.month c'.day ⟨m1', m2'⟩ ⟨d1', d2'⟩
  have hy : c.year = c'.year := by
    simp only [dayNumber] at hD
    rcases lt_trichotomy c.year c'.year with hlt | heq | hgt
    · have := daysBeforeYear_mono (c.year + 1) c'.year (by omega)
      have := daysBeforeYear_succ c.year
      omega
    · exact heq
    · have := daysBeforeYear_mono (c'.year + 1) c.year (by omega)
      have := daysBeforeYear_succ c'.year
      omega
  have hmd : c.month = c'.month ∧ c.day = c'.day := by
    simp only [dayNumber] at hD
    rw [← hy] at d2' hD
    exact dayOfYear_inj c.year c.month c.day c'.month c'.day ⟨m1, m2⟩ ⟨d1, d2⟩ ⟨m1', m2'⟩
      ⟨d1', d2'⟩ (by omega)
  cases c; cases c'
  simp only [Civil.mk.injEq]
  simp only at hy hmd hh hmi hs
  exact ⟨hy, hmd.1, hmd.2, hh, hmi, hs⟩
theorem digitsLE_length (k : Nat) : ∀ (fuel n : Nat), n < 10 ^ (k + 1) →
    (digitsLE fuel n).length ≤ k + 1 := by
  induction k with
  | zero =>
    intro fuel n h
    cases fuel with
    | zero => simp [digitsLE]
    | succ f =>
      have : n < 10 := by simpa using h
      simp [digitsLE, this]
  | succ k ih =>
    intro fuel n h
    cases fuel with
    | zero => simp [digitsLE]
    | succ f =>
      unfold digitsLE
      split
      · simp
      · have h2 : n / 10 < 10 ^ (k + 1) := by
          rw [Nat.div_lt_iff_lt_mul (by norm_num)]
          calc n < 10 ^ (k + 1 + 1) := h
            _ = 10 ^ (k + 1) * 10 := by ring
        have := ih f (n / 10) h2
        simp only [List.length_cons]
        omega

theorem appendInt_length (x : Int) (k : Nat) (h0 : 0 ≤ x) (h : x < 10 ^ (k + 1)) :
    (appendInt x (k + 1)).length = k + 1 := by
  have hlt : x.natAbs < 10 ^ (k + 1) := by
    zify
    rw [abs_of_nonneg h0]
    exact_mod_cast h
  have h1 := digitsLE_length k (x.natAbs + 1) x.natAbs hlt
  have hneg : ¬ x < 0 := by omega
  simp only [appendInt, hneg, if_false, padZero, decimal, List.nil_append, List.length_append,
    List.length_replicate, List.length_map, List.length_reverse]
  omega

theorem daysInMonth_le (y m : Int) : daysInMonth y m ≤ 31 := by
  unfold daysInMonth
  split_ifs <;> omega

theorem wallClockText_length (c : Civil) (s : Int) (hc : c.IsDateOf s)
    (hy : 0 ≤ c.year ∧ c.year ≤ 9999) : (wallClockText c).length = 20 := by
  obtain ⟨m1, m2, d1, d2, h1, h2, n1, n2, s1, s2, _⟩ := hc
  have d3 := daysInMonth_le c.year c.month
  have e1 : (appendInt c.year 4).length = 4 := appendInt_length _ 3 hy.1 (by omega)
  have e2 : (appendInt c.month 2).length = 2 := appendInt_length _ 1 (by omega) (by omega)
  have e3 : (appendInt c.day 2).length = 2 := appendInt_length _ 1 (by omega) (by omega)
  have e4 : (appendInt c.hour 2).length = 2 := appendInt_length _ 1 (by omega) (by omega)
  have e5 : (appendInt c.minute 2).length = 2 := appendInt_length _ 1 (by omega) (by omega)
  have e6 : (appendInt c.second 2).length = 2 := appendInt_length _ 1 (by omega) (by omega)
  simp only [wallClockText, String.length, List.length_append, List.length_cons,
    List.length_nil]
  omega

set_option maxRecDepth 100000 in
theorem Format_samples :
    (Time.mk 0 0).Format iso8601DateTime = "1970-01-01T00:00:00Z" ∧
    (Time.mk (-1) 0).Format iso8601DateTime = "1969-12-31T23:59:59Z" ∧
    (Time.mk 951782400 0).Format iso8601DateTime = "2000-02-29T00:00:00Z" ∧
    (Time.mk 951868800 0).Format iso8601DateTime = "2000-03-01T00:00:00Z" ∧
    (Time.mk 4107542399 0).Format iso8601DateTime = "2100-02-28T23:59:59Z" ∧
    (Time.mk 4107542400 0).Format iso8601DateTime = "2100-03-01T00:00:00Z" ∧
    (Time.mk 253402300799 0).Format iso8601DateTime = "9999-12-31T23:59:59Z" ∧
    (Time.mk 9223372036854775807 0).Format iso8601DateTime =
      "292277026596-12-04T15:30:07Z" ∧
    (Time.mk (-9223372036854775808) 0).Format iso8601DateTime =
      "292277026596-12-04T15:30:08Z" ∧
    (Time.mk (-9223372028715321600) 0).Format iso8601DateTime =
      "-292277022399-01-01T00:00:00Z" := by
  decide

set_option maxRecDepth 100000 in
/-- C3 (as stated, refuted): two time values that denote the same instant,
one carrying UTC and one carrying a zone one hour east of UTC, put different
`start_time` strings into the payload, and the second is not the UTC date and
time of the instant. -/
theorem timestamp_follows_zone :
    (Time.mk 1704067200 0).unix = (Time.mk 1704067200 3600).unix ∧
    (runStartBody "node1" "acme" sampleUUID sampleUUID (Time.mk 1704067200 0)
      sampleConfig).lookup "start_time" = some (.string "2024-01-01T00:00:00Z") ∧
    (runStartBody "node1" "acme" sampleUUID sampleUUID (Time.mk 1704067200 3600)
      sampleConfig).lookup "start_time" = some (.string "2024-01-01T01:00:00Z") ∧
    wallClockText (civilOfSeconds 1704067200) = "2024-01-01T00:00:00Z" ∧
    "2024-01-01T01:00:00Z" ≠ "2024-01-01T00:00:00Z" := by
  refine ⟨rfl, rfl, rfl, rfl, by decide⟩

/-- C3 (amended): for a start time and an end time whose wall-clock second
count (the Unix seconds of the instant plus the offset of the zone the value
carries) lies on Go's absolute time scale without wrap-around, that is, from
-9223372028715321600 to 2^63 - 1, the `start_time` and `end_time` payload
fields are the text `YYYY-MM-DDTHH:MM:SSZ` of the proleptic Gregorian
calendar date and the clock time, at second precision, of that wall clock
(the one date that exists in the calendar and lies that many seconds after
1970-01-01T00:00:00): the date and time the instant has in the zone the value
carries, followed by a literal `Z`, with no conversion to UTC. For a value that carries UTC it is
the UTC date and time of the instant. For years 0 to 9999 the text has
exactly 20 characters. -/
theorem timestamps_render_own_zone (ext : Externals) (node : GoValue)
    (nodeName orgName : String) (rl expandedRunList : runList) (runUUID nodeUUID : UUID)
    (startTime endTime : Time) (config : chefLoadConfig)
    (hs : -9223372028715321600 ≤ startTime.unix + startTime.offset ∧
      startTime.unix + startTime.offset < 9223372036854775808)
    (he : -9223372028715321600 ≤ endTime.unix + endTime.offset ∧
      endTime.unix + endTime.offset < 9223372036854775808) :
    ∃ cs ce : Civil,
      cs.IsDateOf (startTime.unix + startTime.offset) ∧
      ce.IsDateOf (endTime.unix + endTime.offset) ∧
      (∀ c : Civil, c.IsDateOf (startTime.unix + startTime.offset) → c = cs) ∧
      (∀ c : Civil, c.IsDateOf (endTime.unix + endTime.offset) → c = ce) ∧
      (startTime.offset = 0 → cs.IsDateOf startTime.unix) ∧
      (endTime.offset = 0 → ce.IsDateOf endTime.unix) ∧
      (runStartBody nodeName orgName runUUID nodeUUID startTime config).lookup "start_time" =
        some (.string (wallClockText cs)) ∧
      (runStopBody ext node nodeName orgName rl expandedRunList runUUID nodeUUID startTime
          endTime config).lookup "start_time" = some (.string (wallClockText cs)) ∧
      (runStopBody ext node nodeName orgName rl expandedRunList runUUID nodeUUID startTime
          endTime config).lookup "end_time" = some (.string (wallClockText ce)) ∧
      (0 ≤ cs.year → cs.year ≤ 9999 → (wallClockText cs).length = 20) ∧
      (0 ≤ ce.year → ce.year ≤ 9999 → (wallClockText ce).length = 20) := by
  have hcs := civilOfSeconds_isDateOf (startTime.unix + startTime.offset)
  have hce := civilOfSeconds_isDateOf (endTime.unix + endTime.offset)
  refine ⟨civilOfSeconds (startTime.unix + startTime.offset),
    civilOfSeconds (endTime.unix + endTime.offset), hcs, hce,
    fun c hc => IsDateOf_unique _ _ _ hc hcs, fun c hc => IsDateOf_unique _ _ _ hc hce,
    ?_, ?_, ?_, ?_, ?_, ?_, ?_⟩
  · intro h0
    rw [h0, Int.add_zero] at hcs
    rw [h0, Int.add_zero]
    exact hcs
  · intro h0
    rw [h0, Int.add_zero] at hce
    rw [h0, Int.add_zero]
    exact hce
  · simp [runStartBody, GoFields.ofList, GoFields.lookup, Format_iso8601,
      Time.civil_of_range startTime hs]
  · simp [runStopBody, GoFields.ofList, GoFields.lookup, Format_iso8601,
      Time.civil_of_range startTime hs]
  · simp [runStopBody, GoFields.ofList, GoFields.lookup, Format_iso8601,
      Time.civil_of_range endTime he]
  · intro h0 h1
    exact wallClockText_length _ _ hcs ⟨h0, h1⟩
  · intro h0 h1
    exact wallClockText_length _ _ hce ⟨h0, h1⟩

set_option maxRecDepth 100000 in
theorem timestamps_render_own_zone_witness :
    (-9223372028715321600 ≤ (Time.mk 1704067200 3600).unix + (Time.mk 1704067200 3600).offset ∧
      (Time.mk 1704067200 3600).unix + (Time.mk 1704067200 3600).offset <
        9223372036854775808) ∧
    (-9223372028715321600 ≤ (Time.mk 1704067260 0).unix + (Time.mk 1704067260 0).offset ∧
      (Time.mk 1704067260 0).unix + (Time.mk 1704067260 0).offset < 9223372036854775808) ∧
    ∃ cs ce : Civil,
      cs.IsDateOf ((Time.mk 1704067200 3600).unix + (Time.mk 1704067200 3600).offset) ∧
      ce.IsDateOf ((Time.mk 1704067260 0).unix + (Time.mk 1704067260 0).offset) ∧
      (∀ c : Civil,
        c.IsDateOf ((Time.mk 1704067200 3600).unix + (Time.mk 1704067200 3600).offset) →
          c = cs) ∧
      (∀ c : Civil,
        c.IsDateOf ((Time.mk 1704067260 0).unix + (Time.mk 1704067260 0).offset) → c = ce) ∧
      ((Time.mk 1704067200 3600).offset = 0 → cs.IsDateOf (Time.mk 1704067200 3600).unix) ∧
      ((Time.mk 1704067260 0).offset = 0 → ce.IsDateOf (Time.mk 1704067260 0).unix) ∧
      (runStartBody "node1" "acme" sampleUUID sampleUUID (Time.mk 1704067200 3600)
        sampleConfig).lookup "start_time" = some (.string (wallClockText cs)) ∧
      (runStopBody sampleExternals .null "node1" "acme" [] [] sampleUUID sampleUUID
        (Time.mk 1704067200 3600) (Time.mk 1704067260 0) sampleConfig).lookup "start_time" =
          some (.string (wallClockText cs)) ∧
      (runStopBody sampleExternals .null "node1" "acme" [] [] sampleUUID sampleUUID
        (Time.mk 1704067200 3600) (Time.mk 1704067260 0) sampleConfig).lookup "end_time" =
          some (.string (wallClockText ce)) ∧
      (0 ≤ cs.year → cs.year ≤ 9999 → (wallClockText cs).length = 20) ∧
      (0 ≤ ce.year → ce.year ≤ 9999 → (wallClockText ce).length = 20) :=
  ⟨by decide, by decide,
    timestamps_render_own_zone sampleExternals .null "node1" "acme" [] [] sampleUUID
      sampleUUID (Time.mk 1704067200 3600) (Time.mk 1704067260 0) sampleConfig
      (by decide) (by decide)⟩

/-! ## Reading back what the encoder writes: strings -/

theorem hexVal_digitChar (d : Nat) (h : d < 16) : hexVal (digitChar d) = some d := by
  interval_cases d <;> rfl

theorem unicodeEscape_low (n : Nat) (h : n < 256) :
    unicodeEscape '0' '0' (digitChar (n / 16)) (digitChar (n % 16)) = some (Char.ofNat n) := by
  have h1 : hexVal '0' = some 0 := rfl
  have h2 := hexVal_digitChar (n / 16) (by omega)
  have h3 := hexVal_digitChar (n % 16) (by omega)
  simp only [unicodeEscape, h1, h2, h3]
  have e : ((0 * 16 + 0) * 16 + n / 16) * 16 + n % 16 = n := by omega
  rw [e]
  have : ¬ (55296 ≤ n ∧ n ≤ 57343) := by omega
  simp [this]

theorem parseStringBody_escapeChar (c : Char) (tail : List Char) :
    parseStringBody (escapeChar c ++ tail) = consChar c (parseStringBody tail) := by
  unfold escapeChar
  split
  · next h => subst h; rw [parseStringBody.eq_def]; rfl
  split
  · next h => subst h; rw [parseStringBody.eq_def]; rfl
  split
  · next h => subst h; rw [parseStringBody.eq_def]; rfl
  split
  · next h => subst h; rw [parseStringBody.eq_def]; rfl
  split
  · next h => subst h; rw [parseStringBody.eq_def]; rfl
  split
  · next h => subst h; rw [parseStringBody.eq_def]; rfl
  split
  · next h => subst h; rw [parseStringBody.eq_def]; rfl
  split
  · next h =>
    have hn : c.toNat < 256 := by
      rcases h with h | h | h | h
      · omega
      · subst h; decide
      · subst h; decide
      · subst h; decide
    have hu := unicodeEscape_low c.toNat hn
    have hc : Char.ofNat c.toNat = c := Char.ofNat_toNat c
    rw [hc] at hu
    rw [parseStringBody.eq_def]
    simp [hu]
  split
  · next h => subst h; rw [parseStringBody.eq_def]; rfl
  split
  · next h => subst h; rw [parseStringBody.eq_def]; rfl
  · next h1 h2 h3 h4 h5 h6 h7 h8 h9 h10 =>
    have h32 : ¬ c.toNat < 32 := fun h => h8 (Or.inl h)
    rw [List.singleton_append, parseStringBody.eq_def]
    simp [h1, h2, h32]

theorem parseStringBody_escapeChars (s rest : List Char) :
    parseStringBody (escapeChars s ++ '"' :: rest) = some (s, rest) := by
  induction s with
  | nil =>
    rw [escapeChars, List.nil_append, parseStringBody.eq_def]
    simp
  | cons c cs ih =>
    simp only [escapeChars, List.append_assoc]
    rw [parseStringBody_escapeChar, ih]
    rfl

theorem parseStringBody_renderString (s : String) (rest : List Char) :
    ∃ body, renderString s ++ rest = '"' :: body ∧
      parseStringBody body = some (s.toList, rest) :=
  ⟨escapeChars s.toList ++ '"' :: rest, by simp [renderString],
    parseStringBody_escapeChars _ _⟩

/-! ## Reading back what the encoder writes: numbers -/

theorem digitChar_isDigit (d : Nat) (h : d < 10) :
    (digitChar d).isDigit = true ∧ (digitChar d).toNat - 48 = d ∧ digitChar d ≠ '-' := by
  interval_cases d <;> decide

theorem digitsLE_lt (fuel n : Nat) : ∀ d ∈ digitsLE fuel n, d < 10 := by
  induction fuel generalizing n with
  | zero => simp [digitsLE]
  | succ f ih =>
    intro d hd
    unfold digitsLE at hd
    split at hd
    · simp at hd; omega
    · simp only [List.mem_cons] at hd
      rcases hd with rfl | hd
      · omega
      · exact ih _ d hd

theorem digitsLE_value (fuel n : Nat) (h : n < fuel) :
    (digitsLE fuel n).foldr (fun d acc => acc * 10 + d) 0 = n := by
  induction fuel generalizing n with
  | zero => omega
  | succ f ih =>
    unfold digitsLE
    split
    · simp
    · have := ih (n / 10) (by omega)
      simp only [List.foldr_cons, this]
      omega

theorem parseNat_digits (l : List Nat) (hl : ∀ d ∈ l, d < 10) (acc : Nat) :
    (l.map digitChar).foldl (fun a c => a * 10 + (c.toNat - 48)) acc =
      l.foldl (fun a d => a * 10 + d) acc := by
  induction l generalizing acc with
  | nil => rfl
  | cons d ds ih =>
    simp only [List.map_cons, List.foldl_cons]
    rw [(digitChar_isDigit d (hl d (by simp))).2.1]
    exact ih (fun x hx => hl x (by simp [hx])) _

theorem parseNat_decimal (n : Nat) : parseNat (decimal n) = n := by
  unfold parseNat decimal
  rw [parseNat_digits _ (by simpa using digitsLE_lt (n + 1) n), List.foldl_reverse]
  exact digitsLE_value (n + 1) n (by omega)

theorem decimal_digits (n : Nat) : ∀ c ∈ decimal n, c.isDigit = true := by
  intro c hc
  simp only [decimal, List.mem_map, List.mem_reverse] at hc
  obtain ⟨d, hd, rfl⟩ := hc
  exact (digitChar_isDigit d (digitsLE_lt _ _ d hd)).1

theorem decimal_cons (n : Nat) : ∃ c tl, decimal n = c :: tl ∧ c.isDigit = true := by
  have hpos : 0 < (decimal n).length := by
    simp only [decimal, List.length_map, List.length_reverse]
    unfold digitsLE
    split <;> simp
  match h : decimal n with
  | [] => simp [h] at hpos
  | c :: tl => exact ⟨c, tl, rfl, decimal_digits n c (by simp [h])⟩

theorem takeDigits_append (ds rest : List Char) (hds : ∀ c ∈ ds, c.isDigit = true)
    (hrest : startsWithDigit rest = false) : takeDigits (ds ++ rest) = (ds, rest) := by
  induction ds with
  | nil =>
    cases rest with
    | nil => rfl
    | cons c cs =>
      simp only [startsWithDigit] at hrest
      simp [takeDigits, hrest]
  | cons d ds ih =>
    have hd : d.isDigit = true := hds d (by simp)
    have := ih (fun c hc => hds c (by simp [hc]))
    simp [takeDigits, hd, this]

theorem parseNumber_renderInt (n : Int) (rest : List Char)
    (hrest : startsWithDigit rest = false) :
    parseNumber (renderInt n ++ rest) = some (n, rest) := by
  obtain ⟨c, tl, hc, hdig⟩ := decimal_cons n.natAbs
  have htake := takeDigits_append (decimal n.natAbs) rest (decimal_digits _) hrest
  have hval := parseNat_decimal n.natAbs
  have hne : c ≠ '-' := by
    intro h; subst h; simp at hdig
  unfold renderInt
  by_cases hneg : n < 0
  · simp only [hneg, if_true, List.singleton_append, List.cons_append, List.nil_append,
      parseNumber]
    rw [htake, hc] at *
    simp only [if_true]
    rw [← hc, hval]
    congr 2
    omega
  · simp only [hneg, if_false, List.nil_append]
    rw [hc, List.cons_append, parseNumber]
    simp only [hne, if_false]
    rw [← List.cons_append, ← hc, htake, hc]
    simp only
    rw [← hc, hval]
    congr 2
    omega

/-! ## Reading back what the encoder writes: documents -/

theorem skipWs_cons (c : Char) (tl : List Char) (h : isWs c = false) :
    skipWs (c :: tl) = c :: tl := by
  simp [skipWs, h]

theorem parseValue_null (m : Nat) (rest : List Char) :
    parseValue (m + 1) ('n' :: 'u' :: 'l' :: 'l' :: rest) = some (.null, rest) := by
  simp [parseValue, skipWs, isWs]

theorem parseValue_true (m : Nat) (rest : List Char) :
    parseValue (m + 1) ('t' :: 'r' :: 'u' :: 'e' :: rest) = some (.bool true, rest) := by
  simp [parseValue, skipWs, isWs]

theorem parseValue_false (m : Nat) (rest : List Char) :
    parseValue (m + 1) ('f' :: 'a' :: 'l' :: 's' :: 'e' :: rest) = some (.bool false, rest) := by
  simp [parseValue, skipWs, isWs]

theorem parseValue_string (m : Nat) (body : List Char) :
    parseValue (m + 1) ('"' :: body) =
      match parseStringBody body with
      | some (s, rest') => some (.str (String.mk s), rest')
      | none => none := by
  simp [parseValue, skipWs, isWs]

theorem parseValue_number (m : Nat) (c : Char) (tl : List Char)
    (hc : c = '-' ∨ c.isDigit = true) :
    parseValue (m + 1) (c :: tl) =
      match parseNumber (c :: tl) with
      | some (n, rest') => some (.num n, rest')
      | none => none := by
  have h : isWs c = false ∧ c ≠ 'n' ∧ c ≠ 't' ∧ c ≠ 'f' ∧ c ≠ '"' ∧ c ≠ '[' ∧ c ≠ '{' := by
    rcases hc with rfl | hc
    · decide
    · refine ⟨?_, ?_, ?_, ?_, ?_, ?_, ?_⟩
      · cases hw : isWs c with
        | false => rfl
        | true =>
          simp only [isWs, Bool.or_eq_true, decide_eq_true_eq] at hw
          rcases hw with ((rfl | rfl) | rfl) | rfl <;> simp at hc
      all_goals (rintro rfl; simp at hc)
  obtain ⟨h0, h1, h2, h3, h4, h5, h6⟩ := h
  simp [parseValue, skipWs, h0, h1, h2, h3, h4, h5, h6]

theorem parseValue_emptyArray (m : Nat) (rest : List Char) :
    parseValue (m + 1) ('[' :: ']' :: rest) = some (.arr .nil, rest) := by
  simp [parseValue, skipWs, isWs]

theorem parseValue_emptyObject (m : Nat) (rest : List Char) :
    parseValue (m + 1) ('{' :: '}' :: rest) = some (.obj .nil, rest) := by
  simp [parseValue, skipWs, isWs]

theorem parseValue_array (m : Nat) (c : Char) (tl : List Char)
    (hws : isWs c = false) (hc : c ≠ ']') :
    parseValue (m + 1) ('[' :: c :: tl) =
      match parseElems m (c :: tl) with
      | some (js, rest') => some (.arr js, rest')
      | none => none := by
  have h1 : skipWs ('[' :: c :: tl) = '[' :: c :: tl := skipWs_cons _ _ (by decide)
  simp only [parseValue, h1, skipWs_cons c tl hws]
  simp [hc]

theorem parseValue_object (m : Nat) (c : Char) (tl : List Char)
    (hws : isWs c = false) (hc : c ≠ '}') :
    parseValue (m + 1) ('{' :: c :: tl) =
      match parseMembers m (c :: tl) with
      | some (ms, rest') => some (.obj ms, rest')
      | none => none := by
  have h1 : skipWs ('{' :: c :: tl) = '{' :: c :: tl := skipWs_cons _ _ (by decide)
  simp only [parseValue, h1, skipWs_cons c tl hws]
  simp [hc]

theorem parseElems_last (m : Nat) (input rest : List Char) (j : Json)
    (h : parseValue m input = some (j, ']' :: rest)) :
    parseElems (m + 1) input = some (.cons j .nil, rest) := by
  simp [parseElems, h, skipWs, isWs]

theorem parseElems_more (m : Nat) (input rest : List Char) (j : Json)
    (h : parseValue m input = some (j, ',' :: rest)) :
    parseElems (m + 1) input =
      match parseElems m rest with
      | some (js, rest') => some (.cons j js, rest')
      | none => none := by
  simp [parseElems, h, skipWs, isWs]

theorem parseMembers_last (m : Nat) (k : String) (input rest : List Char) (j : Json)
    (h : parseValue m input = some (j, '}' :: rest)) :
    parseMembers (m + 1) (renderString k ++ ':' :: input) = some (.cons k j .nil, rest) := by
  have hk := parseStringBody_escapeChars k.data (':' :: input)
  simp [parseMembers, renderString, skipWs, isWs, hk, h]

theorem parseMembers_more (m : Nat) (k : String) (input rest : List Char) (j : Json)
    (h : parseValue m input = some (j, ',' :: rest)) :
    parseMembers (m + 1) (renderString k ++ ':' :: input) =
      match parseMembers m rest with
      | some (ms, rest') => some (.cons k j ms, rest')
      | none => none := by
  have hk := parseStringBody_escapeChars k.data (':' :: input)
  simp [parseMembers, renderString, skipWs, isWs, hk, h]

theorem renderInt_cons (n : Int) :
    ∃ c tl, renderInt n = c :: tl ∧ (c = '-' ∨ c.isDigit = true) := by
  obtain ⟨c, tl, hc, hd⟩ := decimal_cons n.natAbs
  unfold renderInt
  by_cases h : n < 0
  · exact ⟨'-', decimal n.natAbs, by simp [h], Or.inl rfl⟩
  · exact ⟨c, tl, by simp [h, hc], Or.inr hd⟩

theorem render_head (j : Json) :
    ∃ c tl, j.render = c :: tl ∧ isWs c = false ∧ c ≠ ']' ∧ c ≠ '}' := by
  cases j with
  | null => exact ⟨'n', _, rfl, by decide⟩
  | bool b => cases b <;> exact ⟨_, _, rfl, by decide⟩
  | num n =>
    obtain ⟨c, tl, hc, hd⟩ := renderInt_cons n
    refine ⟨c, tl, by simp [Json.render, hc], ?_⟩
    rcases hd with rfl | hd
    · decide
    · refine ⟨?_, ?_, ?_⟩
      · cases hw : isWs c with
        | false => rfl
        | true =>
          simp only [isWs, Bool.or_eq_true, decide_eq_true_eq] at hw
          rcases hw with ((rfl | rfl) | rfl) | rfl <;> simp at hd
      all_goals (rintro rfl; simp at hd)
  | str s => exact ⟨'"', _, rfl, by decide⟩
  | arr js => cases js <;> exact ⟨'[', _, rfl, by decide⟩
  | obj ms => cases ms <;> exact ⟨'{', _, rfl, by decide⟩

mutual
theorem parseValue_render : ∀ j : Json, ReadsBack j
  | .null => by
    intro n rest _ hn
    obtain ⟨m, rfl⟩ : ∃ m, n = m + 1 := ⟨n - 1, by simp [Json.render] at hn; omega⟩
    exact parseValue_null m rest
  | .bool true => by
    intro n rest _ hn
    obtain ⟨m, rfl⟩ : ∃ m, n = m + 1 := ⟨n - 1, by simp [Json.render] at hn; omega⟩
    exact parseValue_true m rest
  | .bool false => by
    intro n rest _ hn
    obtain ⟨m, rfl⟩ : ∃ m, n = m + 1 := ⟨n - 1, by simp [Json.render] at hn; omega⟩
    exact parseValue_false m rest
  | .num i => by
    intro n rest hrest hn
    obtain ⟨m, rfl⟩ : ∃ m, n = m + 1 := ⟨n - 1, by omega⟩
    obtain ⟨c, tl, hc, hd⟩ := renderInt_cons i
    have hp := parseNumber_renderInt i rest hrest
    simp only [Json.render]
    rw [hc] at hp ⊢
    rw [List.cons_append] at hp ⊢
    rw [parseValue_number m c _ hd, hp]
  | .str s => by
    intro n rest _ hn
    obtain ⟨m, rfl⟩ : ∃ m, n = m + 1 := ⟨n - 1, by omega⟩
    obtain ⟨body, hb, hp⟩ := parseStringBody_renderString s rest
    simp only [Json.render]
    rw [hb, parseValue_string, hp]
    rfl
  | .arr .nil => by
    intro n rest _ hn
    obtain ⟨m, rfl⟩ : ∃ m, n = m + 1 := ⟨n - 1, by omega⟩
    exact parseValue_emptyArray m rest
  | .arr (.cons j js) => by
    intro n rest _ hn
    obtain ⟨m, rfl⟩ : ∃ m, n = m + 1 := ⟨n - 1, by omega⟩
    have hj := parseValue_render j
    have hjs := parseElems_render js j hj m rest
      (by simp only [Json.render, List.length_cons] at hn; omega)
    obtain ⟨c, tl, hc, hws, hne, _⟩ := render_head j
    simp only [Json.render, List.cons_append, List.append_assoc]
    rw [hc, List.cons_append, parseValue_array m c _ hws hne, ← List.cons_append, ← hc, hjs]
  | .obj .nil => by
    intro n rest _ hn
    obtain ⟨m, rfl⟩ : ∃ m, n = m + 1 := ⟨n - 1, by omega⟩
    exact parseValue_emptyObject m rest
  | .obj (.cons k j ms) => by
    intro n rest _ hn
    obtain ⟨m, rfl⟩ : ∃ m, n = m + 1 := ⟨n - 1, by omega⟩
    have hj := parseValue_render j
    have hms := parseMembers_render ms k j hj m rest
      (by simp only [Json.render, List.length_cons] at hn; omega)
    simp only [Json.render, List.cons_append, List.append_assoc]
    have hq : renderString k ++ ':' :: (j.render ++ (ms.renderTail ++ rest)) =
        '"' :: (escapeChars k.toList ++ '"' :: ':' :: (j.render ++ (ms.renderTail ++ rest))) := by
      simp [renderString]
    rw [hq, parseValue_object m '"' _ (by decide) (by decide), ← hq, hms]
theorem parseElems_render : ∀ (js : JsonList) (j : Json), ReadsBack j →
    ∀ (n : Nat) (rest : List Char), (j.render ++ js.renderTail).length < n →
      parseElems n (j.render ++ (js.renderTail ++ rest)) = some (.cons j js, rest)
  | .nil, j, hj => by
    intro n rest hn
    obtain ⟨m, rfl⟩ : ∃ m, n = m + 1 := ⟨n - 1, by omega⟩
    simp only [JsonList.renderTail, List.length_append, List.length_cons, List.length_nil] at hn
    have h := hj m (']' :: rest) rfl (by omega)
    exact parseElems_last m _ rest j h
  | .cons j' js', j, hj => by
    intro n rest hn
    obtain ⟨m, rfl⟩ : ∃ m, n = m + 1 := ⟨n - 1, by omega⟩
    simp only [JsonList.renderTail, List.length_append, List.length_cons] at hn
    have h := hj m (',' :: (j'.render ++ (js'.renderTail ++ rest))) rfl (by omega)
    have hrec := parseElems_render js' j' (parseValue_render j') m rest
      (by simp only [List.length_append]; omega)
    simp only [JsonList.renderTail, List.cons_append, List.append_assoc]
    rw [parseElems_more m _ _ j h, hrec]
theorem parseMembers_render : ∀ (ms : JsonMembers) (k : String) (j : Json), ReadsBack j →
    ∀ (n : Nat) (rest : List Char),
      (renderString k ++ ':' :: (j.render ++ ms.renderTail)).length < n →
      parseMembers n (renderString k ++ ':' :: (j.render ++ (ms.renderTail ++ rest))) =
        some (.cons k j ms, rest)
  | .nil, k, j, hj => by
    intro n rest hn
    obtain ⟨m, rfl⟩ : ∃ m, n = m + 1 := ⟨n - 1, by omega⟩
    simp only [JsonMembers.renderTail, List.length_append, List.length_cons,
      List.length_nil] at hn
    have h := hj m ('}' :: rest) rfl (by omega)
    exact parseMembers_last m k _ rest j h
  | .cons k' j' ms', k, j, hj => by
    intro n rest hn
    obtain ⟨m, rfl⟩ : ∃ m, n = m + 1 := ⟨n - 1, by omega⟩
    simp only [JsonMembers.renderTail, List.length_append, List.length_cons] at hn
    have h := hj m (',' :: (renderString k' ++ ':' :: (j'.render ++ (ms'.renderTail ++ rest))))
      rfl (by omega)
    have hrec := parseMembers_render ms' k' j' (parseValue_render j') m rest
      (by simp only [List.length_append, List.length_cons]; omega)
    simp only [JsonMembers.renderTail, List.cons_append, List.append_assoc]
    rw [parseMembers_more m k _ _ j h, hrec]
end

theorem parseJSON_render (j : Json) : parseJSON (j.render ++ ['\n']) = some j := by
  unfold parseJSON
  rw [parseValue_render j _ ['\n'] rfl (by simp only [List.length_append, List.length_cons, List.length_nil]; omega)]
  rfl

/-! ## Keys and values of a marshalled map -/

theorem keyLt_irrefl (a : List Char) : keyLt a a = false := by
  induction a with
  | nil => rfl
  | cons c cs ih => simp [keyLt, ih]

theorem lookup_insert (k k' : String) (j : Json) : ∀ ms : JsonMembers,
    (JsonMembers.insert k j ms).lookup k' = if k = k' then some j else ms.lookup k'
  | .nil => by simp [JsonMembers.insert, JsonMembers.lookup]
  | .cons k0 j0 rest => by
    have ih := lookup_insert k k' j rest
    unfold JsonMembers.insert
    split
    · next hlt =>
      have hne : k0 ≠ k := by
        rintro rfl
        rw [keyLt_irrefl] at hlt
        exact Bool.false_ne_true hlt
      simp only [JsonMembers.lookup, ih]
      by_cases h0 : k0 = k'
      · have : k ≠ k' := fun h => hne (h0.trans h.symm)
        simp [h0, this]
      · simp [h0]
    · simp [JsonMembers.lookup]

theorem lookup_sort (k : String) : ∀ ms : JsonMembers, ms.sort.lookup k = ms.lookup k
  | .nil => rfl
  | .cons k0 j0 rest => by
    have ih := lookup_sort k rest
    simp [JsonMembers.sort, lookup_insert, JsonMembers.lookup, ih]

theorem marshalFields_lookup : ∀ (fs : GoFields) (ms : JsonMembers) (k : String),
    marshalFields fs = .ok ms →
    (∀ v, fs.lookup k = some v → ∃ j, marshal v = .ok j ∧ ms.lookup k = some j) ∧
    (fs.lookup k = none → ms.lookup k = none)
  | .nil, ms, k, h => by
    simp only [marshalFields, Except.ok.injEq] at h
    subst h
    simp [GoFields.lookup, JsonMembers.lookup]
  | .cons k0 v0 rest, ms, k, h => by
    simp only [marshalFields] at h
    cases hv : marshal v0 with
    | error e => simp [hv] at h
    | ok j0 =>
      cases hr : marshalFields rest with
      | error e => simp [hv, hr] at h
      | ok ms0 =>
        simp only [hv, hr, Except.ok.injEq] at h
        subst h
        have ih := marshalFields_lookup rest ms0 k hr
        by_cases h0 : k0 = k
        · simp [GoFields.lookup, JsonMembers.lookup, h0, hv]
        · simpa [GoFields.lookup, JsonMembers.lookup, h0] using ih

/-! ## The request that `Update` sends -/

theorem canonical_header_keys :
    CanonicalMIMEHeaderKey "Content-Type" = "Content-Type" ∧
    CanonicalMIMEHeaderKey "x-data-collector-auth" = "X-Data-Collector-Auth" ∧
    CanonicalMIMEHeaderKey "x-data-collector-token" = "X-Data-Collector-Token" := by
  decide

theorem marshal_map (payload : GoFields) (doc : Json) (h : marshal (.map payload) = .ok doc) :
    ∃ ms, marshalFields payload = .ok ms ∧ doc = .obj ms.sort := by
  simp only [marshal] at h
  cases hm : marshalFields payload with
  | error e => simp [hm] at h
  | ok ms =>
    simp only [hm, Except.ok.injEq] at h
    exact ⟨ms, rfl, h.symm⟩

set_option maxRecDepth 100000 in
theorem run_start_scenario :
    (dataCollectorRunStart sampleExternals "node1" "acme" sampleUUID sampleUUID
        ⟨1704067200, 0⟩ sampleConfig).update.sent.map (fun req => String.mk req.Body) =
      ["\x7b\"chef_server_fqdn\":\"https://chef.example.com\"," ++
       "\"entity_uuid\":\"11111111-1111-1111-1111-111111111111\"," ++
       "\"id\":\"11111111-1111-1111-1111-111111111111\"," ++
       "\"message_type\":\"run_start\",\"message_version\":\"1.0.0\"," ++
       "\"node_name\":\"node1\",\"organization\":\"acme\"," ++
       "\"run_id\":\"11111111-1111-1111-1111-111111111111\"," ++
       "\"source\":\"chef_client\",\"start_time\":\"2024-01-01T00:00:00Z\"\x7d\n"] := by
  decide

theorem Update_drops_encode_error :
    encodeJSON (GoMap.mk (.cons "resources" .unsupported .nil)).toGo =
      .error "json: unsupported type" ∧
    (sampleClient.Update sampleExternals (.mk (.cons "resources" .unsupported .nil))).sent =
      [{ sampleRequest with Body := [] }] ∧
    parseJSON [] = none := by
  refine ⟨rfl, by decide, rfl⟩

/-- C6 (as stated, refuted): when the server answers the POST with a 307
redirect, one call of `Update` makes one call of `Client.Do`, and the HTTP
client sends two POST requests with the same body, one to the configured URL
and one to the redirect target: two HTTP requests, not exactly one. -/
theorem Update_follows_redirect :
    (sampleClient.Update redirectExternals (.mk .nil)).sent = [sampleRequest] ∧
    redirectExternals.Do ⟨true, 0⟩ sampleRequest =
      (clientDo sampleExternals.parseURL redirectingServer 10 sampleRequest.onWire).result ∧
    (clientDo sampleExternals.parseURL redirectingServer 10 sampleRequest.onWire).answered =
      [{ Method := "POST", URL := ⟨"https://dc.example.com/events"⟩,
         Body := ['{', '}', '\n'] },
       { Method := "POST", URL := ⟨"https://dc.example.com/v2/events"⟩,
         Body := ['{', '}', '\n'] }] ∧
    (sampleClient.Update redirectExternals (.mk .nil)).outcome = .returned none := by
  refine ⟨by decide, rfl, by decide, by decide⟩

/-- C6 (amended): for a client with a non-nil HTTP client and a URL whose
string form parses, so that the request can be created, and a payload (nil or
not) that `json.Marshal` accepts, one call of `Update` makes exactly one call
of `Client.Do`; how many requests the HTTP client then sends is its own
affair. The request handed over is a POST to the URL parsed from the string
form of the client's URL, with the headers Content-Type = application/json,
x-data-collector-auth = version=1.0 and x-data-collector-token = the
client's Token, and its body is the JSON serialisation of the payload
followed by a newline. The body parses back to the document that was
written: an object for a non-nil payload, `null` for the nil one, which has
under every key of the payload the JSON form of the payload's value, and no
other key. Payload values are nil, booleans, integers, strings of valid
UTF-8, and slices, structs and maps of these. -/
theorem Update_posts_payload (ext : Externals) (dcc : DataCollectorClient)
    (client : HTTPClient) (u target : URL) (payload : GoMap) (doc : Json)
    (hc : dcc.Client = some client)
    (hu : dcc.URL = some u) (hreq : ext.parseURL u.String = .ok target)
    (henc : marshal payload.toGo = .ok doc) :
    ∃ req : Request,
      (dcc.Update ext payload).sent = [req] ∧
      req.Method = "POST" ∧ req.URL = target ∧
      req.Header.Get "Content-Type" = "application/json" ∧
      req.Header.Get "x-data-collector-auth" = "version=1.0" ∧
      req.Header.Get "x-data-collector-token" = dcc.Token ∧
      encodeJSON payload.toGo = .ok doc.render ∧
      req.Body = doc.render ++ ['\n'] ∧
      parseJSON req.Body = some doc ∧
      (∀ entries, payload = .mk entries → ∃ ms, doc = .obj ms) ∧
      (payload = .nil → doc = .null) ∧
      (∀ k v, payload.lookup k = some v → ∃ j, marshal v = .ok j ∧ doc.member k = some j) ∧
      (∀ k, payload.lookup k = none → doc.member k = none) := by
  obtain ⟨c1, c2, c3⟩ := canonical_header_keys
  have hbuf : encoderOutput payload.toGo = doc.render ++ ['\n'] := by
    simp [encoderOutput, encodeJSON, henc]
  refine ⟨{ Method := "POST", URL := target,
             Header := Header.Set (Header.Set (Header.Set [] "Content-Type" "application/json")
               "x-data-collector-auth" "version=1.0") "x-data-collector-token" dcc.Token,
             Body := doc.render ++ ['\n'] },
    ?_, ?_, ?_, ?_, ?_, ?_, ?_, ?_, ?_, ?_, ?_, ?_, ?_⟩
  · simp only [DataCollectorClient.Update, hu, hc, NewRequest, hreq, hbuf]
  · rfl
  · rfl
  · simp [Header.Get, Header.Set, c1, c2, c3, List.lookup]
  · simp [Header.Get, Header.Set, c1, c2, c3, List.lookup]
  · simp [Header.Get, Header.Set, c1, c2, c3, List.lookup]
  · simp [encodeJSON, henc]
  · rfl
  · exact parseJSON_render doc
  · intro entries he
    subst he
    obtain ⟨ms, _, hdoc⟩ := marshal_map entries doc henc
    exact ⟨_, hdoc⟩
  · intro he
    subst he
    simp only [GoMap.toGo, marshal, Except.ok.injEq] at henc
    exact henc.symm
  · intro k v hk
    cases payload with
    | nil => simp [GoMap.lookup] at hk
    | mk entries =>
      obtain ⟨ms, hms, hdoc⟩ := marshal_map entries doc henc
      obtain ⟨j, hj, hl⟩ := (marshalFields_lookup entries ms k hms).1 v hk
      exact ⟨j, hj, by rw [hdoc, Json.member, lookup_sort, hl]⟩
  · intro k hk
    cases payload with
    | nil =>
      simp only [GoMap.toGo, marshal, Except.ok.injEq] at henc
      rw [← henc]
      rfl
    | mk entries =>
      obtain ⟨ms, hms, hdoc⟩ := marshal_map entries doc henc
      rw [hdoc, Json.member, lookup_sort]
      exact (marshalFields_lookup entries ms k hms).2 hk

theorem Update_posts_payload_witness :
    ∃ req : Request,
      (sampleClient.Update sampleExternals (.mk (.cons "source" (.string "chef_client")
          (.cons "resources" (.array .nil) .nil)))).sent = [req] ∧
      req.Method = "POST" ∧ req.URL = ⟨"https://dc.example.com/events"⟩ ∧
      req.Header.Get "Content-Type" = "application/json" ∧
      req.Header.Get "x-data-collector-auth" = "version=1.0" ∧
      req.Header.Get "x-data-collector-token" = sampleClient.Token ∧
      encodeJSON (GoMap.mk (.cons "source" (.string "chef_client")
          (.cons "resources" (.array .nil) .nil))).toGo =
        .ok (Json.obj (.cons "resources" (.arr .nil)
          (.cons "source" (.str "chef_client") .nil))).render ∧
      req.Body = (Json.obj (.cons "resources" (.arr .nil)
          (.cons "source" (.str "chef_client") .nil))).render ++ ['\n'] ∧
      parseJSON req.Body = some (Json.obj (.cons "resources" (.arr .nil)
          (.cons "source" (.str "chef_client") .nil))) ∧
      (∀ entries, GoMap.mk (.cons "source" (.string "chef_client")
          (.cons "resources" (.array .nil) .nil)) = .mk entries →
        ∃ ms, Json.obj (.cons "resources" (.arr .nil)
          (.cons "source" (.str "chef_client") .nil)) = .obj ms) ∧
      (GoMap.mk (.cons "source" (.string "chef_client")
          (.cons "resources" (.array .nil) .nil)) = .nil →
        Json.obj (.cons "resources" (.arr .nil)
          (.cons "source" (.str "chef_client") .nil)) = .null) ∧
      (∀ k v, (GoMap.mk (.cons "source" (.string "chef_client")
          (.cons "resources" (.array .nil) .nil))).lookup k = some v →
        ∃ j, marshal v = .ok j ∧
          (Json.obj (.cons "resources" (.arr .nil)
            (.cons "source" (.str "chef_client") .nil))).member k = some j) ∧
      (∀ k, (GoMap.mk (.cons "source" (.string "chef_client")
          (.cons "resources" (.array .nil) .nil))).lookup k = none →
        (Json.obj (.cons "resources" (.arr .nil)
          (.cons "source" (.str "chef_client") .nil))).member k = none) :=
  Update_posts_payload sampleExternals sampleClient ⟨true, 0⟩
    ⟨"https://dc.example.com/events"⟩ ⟨"https://dc.example.com/events"⟩
    (.mk (.cons "source" (.string "chef_client") (.cons "resources" (.array .nil) .nil)))
    (.obj (.cons "resources" (.arr .nil) (.cons "source" (.str "chef_client") .nil)))
    rfl rfl rfl rfl

/-! ## The expanded run list in the payload -/

theorem foldl_append_mk (l : runList) (acc : List expandedRunListItem) :
    l.foldl (fun items item => Slice.append items (expandItem item)) (Slice.mk acc) =
      Slice.mk (acc ++ l.map expandItem) := by
  induction l generalizing acc with
  | nil => simp
  | cons x xs ih =>
    rw [List.foldl_cons]
    show List.foldl _ (Slice.mk (acc ++ [expandItem x])) xs = _
    rw [ih]
    simp

theorem expandRunList_cons (item : runListItem) (items : runList) :
    expandRunList (item :: items) = .mk ((item :: items).map expandItem) := by
  unfold expandRunList
  rw [List.foldl_cons]
  show List.foldl _ (Slice.mk [expandItem item]) items = _
  rw [foldl_append_mk]
  simp

theorem GoValues.toList_ofList (l : List GoValue) : (GoValues.ofList l).toList = l := by
  induction l with
  | nil => rfl
  | cons x xs ih => simp [GoValues.ofList, GoValues.toList, ih]

theorem marshal_item (e : expandedRunListItem) : marshal e.toGo = .ok e.toJson := by
  cases hv : e.Version <;>
    simp [expandedRunListItem.toGo, expandedRunListItem.toJson, structFields, marshal,
      marshalFields, hv]

theorem marshalList_items (l : List expandedRunListItem) :
    marshalList (GoValues.ofList (l.map expandedRunListItem.toGo)) =
      .ok (JsonList.ofList (l.map expandedRunListItem.toJson)) := by
  induction l with
  | nil => rfl
  | cons x xs ih =>
    simp only [List.map_cons, GoValues.ofList, marshalList, marshal_item, ih, JsonList.ofList]

set_option maxRecDepth 100000 in
/-- C2 (as stated, refuted): for the item {name: "recipe[a]", type: "recipe",
version: ""} the object written under `expanded_run_list.run_list` does have
a `version` key, holding `null`: the request body of the run-converge call
reads `"version":null`. -/
theorem unversioned_item_has_version_key :
    marshal (expandItem unpinnedItem).toGo =
      .ok (.obj (.cons "type" (.str "recipe") (.cons "name" (.str "recipe[a]")
        (.cons "version" .null (.cons "skipped" (.bool false) .nil))))) ∧
    (JsonMembers.cons "type" (.str "recipe") (.cons "name" (.str "recipe[a]")
        (.cons "version" .null (.cons "skipped" (.bool false) .nil)))).lookup "version" =
      some .null ∧
    (dataCollectorRunStop sampleExternals .null "node1" "acme" [] [unpinnedItem]
        sampleUUID sampleUUID ⟨1704067200, 0⟩ ⟨1704067260, 0⟩ sampleConfig).update.sent.map
        (fun req => String.mk req.Body) =
      ["\x7b\"chef_server_fqdn\":\"https://chef.example.com\"," ++
       "\"end_time\":\"2024-01-01T00:01:00Z\"," ++
       "\"entity_uuid\":\"11111111-1111-1111-1111-111111111111\"," ++
       "\"expanded_run_list\":\x7b\"id\":\"_default\",\"run_list\":[\x7b\"type\":\"recipe\"," ++
       "\"name\":\"recipe[a]\",\"version\":null,\"skipped\":false\x7d]\x7d," ++
       "\"id\":\"11111111-1111-1111-1111-111111111111\"," ++
       "\"message_type\":\"run_converge\",\"message_version\":\"1.0.0\",\"node\":null," ++
       "\"node_name\":\"node1\",\"organization\":\"acme\",\"resources\":[]," ++
       "\"run_id\":\"11111111-1111-1111-1111-111111111111\",\"run_list\":[]," ++
       "\"source\":\"chef_client\",\"start_time\":\"2024-01-01T00:00:00Z\"," ++
       "\"status\":\"success\",\"total_resource_count\":0," ++
       "\"updated_resource_count\":0\x7d\n"] := by
  refine ⟨rfl, rfl, by decide⟩

/-- C2 (amended): for every expanded run list item whose version is the empty
string, the value stored for it under `expanded_run_list.run_list` of the
run-converge payload serialises to a JSON object with exactly the keys type,
name, version and skipped, in which `version` is present and `null` and
`skipped` is false. -/
theorem unversioned_item_serialises_null (ext : Externals) (node : GoValue)
    (nodeName orgName : String) (rl expandedRunList : runList) (runUUID nodeUUID : UUID)
    (startTime endTime : Time) (config : chefLoadConfig) (i : Nat) (item : runListItem)
    (h : expandedRunList[i]? = some item) (hv : item.version = "") :
    ∃ (vs : GoValues) (v : GoValue) (ms : JsonMembers),
      (runStopBody ext node nodeName orgName rl expandedRunList runUUID nodeUUID startTime
        endTime config).lookup "expanded_run_list" =
          some (.map (expandedRunListMap expandedRunList config)) ∧
      (expandedRunListMap expandedRunList config).lookup "run_list" = some (.array vs) ∧
      vs.toList[i]? = some v ∧
      marshal v = .ok (.obj ms) ∧
      ms.keys = ["type", "name", "version", "skipped"] ∧
      ms.lookup "version" = some .null ∧
      ms.lookup "skipped" = some (.bool false) ∧
      encodeJSON v = .ok (['{'] ++ renderString "type" ++ [':'] ++ renderString item.itemType ++
        [','] ++ renderString "name" ++ [':'] ++ renderString item.name ++
        [','] ++ renderString "version" ++ [':', 'n', 'u', 'l', 'l'] ++
        [','] ++ renderString "skipped" ++ [':', 'f', 'a', 'l', 's', 'e', '}']) := by
  cases expandedRunList with
  | nil => simp at h
  | cons x xs =>
    have he : expandItem item =
        { ItemType := item.itemType, Name := item.name, Version := none, Skipped := false } := by
      simp [expandItem, hv]
    refine ⟨GoValues.ofList (((x :: xs).map expandItem).map expandedRunListItem.toGo),
      (expandItem item).toGo, _, ?_, ?_, ?_, marshal_item _, ?_, ?_, ?_, ?_⟩
    · simp [runStopBody, GoFields.ofList, GoFields.lookup]
    · simp only [expandedRunListMap, GoFields.ofList, GoFields.lookup, expandRunList_cons,
        Slice.toGo]
      simp
    · rw [GoValues.toList_ofList, List.map_map, List.getElem?_map, h]
      rfl
    · rw [he]; rfl
    · rw [he]; rfl
    · rw [he]; rfl
    · rw [encodeJSON, marshal_item, he]
      simp [expandedRunListItem.toJson, Json.render, JsonMembers.renderTail]

theorem unversioned_item_serialises_null_witness :
    ∃ (vs : GoValues) (v : GoValue) (ms : JsonMembers),
      (runStopBody sampleExternals .null "node1" "acme" [pinnedItem] [pinnedItem, unpinnedItem]
        sampleUUID sampleUUID ⟨1704067200, 0⟩ ⟨1704067260, 0⟩ sampleConfig).lookup
          "expanded_run_list" =
          some (.map (expandedRunListMap [pinnedItem, unpinnedItem] sampleConfig)) ∧
      (expandedRunListMap [pinnedItem, unpinnedItem] sampleConfig).lookup "run_list" =
        some (.array vs) ∧
      vs.toList[1]? = some v ∧
      marshal v = .ok (.obj ms) ∧
      ms.keys = ["type", "name", "version", "skipped"] ∧
      ms.lookup "version" = some .null ∧
      ms.lookup "skipped" = some (.bool false) ∧
      encodeJSON v = .ok (['{'] ++ renderString "type" ++ [':'] ++
        renderString unpinnedItem.itemType ++
        [','] ++ renderString "name" ++ [':'] ++ renderString unpinnedItem.name ++
        [','] ++ renderString "version" ++ [':', 'n', 'u', 'l', 'l'] ++
        [','] ++ renderString "skipped" ++ [':', 'f', 'a', 'l', 's', 'e', '}']) :=
  unversioned_item_serialises_null sampleExternals .null "node1" "acme" [pinnedItem]
    [pinnedItem, unpinnedItem] sampleUUID sampleUUID ⟨1704067200, 0⟩ ⟨1704067260, 0⟩
    sampleConfig 1 unpinnedItem rfl rfl

/-- C10: for an empty expanded run list the value stored under
`expanded_run_list.run_list` is the nil slice, which serialises to `null`;
for a non-empty one it is a non-nil slice, which serialises to a JSON array
of one object per item; the `resources` field is the empty non-nil slice,
which serialises to `[]`. -/
theorem run_list_null_or_array (ext : Externals) (node : GoValue)
    (nodeName orgName : String) (rl expandedRunList : runList) (runUUID nodeUUID : UUID)
    (startTime endTime : Time) (config : chefLoadConfig) :
    (runStopBody ext node nodeName orgName rl expandedRunList runUUID nodeUUID startTime
        endTime config).lookup "expanded_run_list" =
      some (.map (expandedRunListMap expandedRunList config)) ∧
    (expandRunList [] = .nil ∧
      (expandedRunListMap [] config).lookup "run_list" = some .null ∧
      encodeJSON .null = .ok ['n', 'u', 'l', 'l']) ∧
    (∀ (item : runListItem) (items : runList), ∃ (vs : GoValues) (tail : List Char),
      (expandedRunListMap (item :: items) config).lookup "run_list" = some (.array vs) ∧
      marshal (.array vs) =
        .ok (.arr (JsonList.ofList (((item :: items).map expandItem).map
          expandedRunListItem.toJson))) ∧
      encodeJSON (.array vs) = .ok ('[' :: tail)) ∧
    ((runStopBody ext node nodeName orgName rl expandedRunList runUUID nodeUUID startTime
        endTime config).lookup "resources" = some (.array .nil) ∧
      encodeJSON (.array .nil) = .ok ['[', ']']) := by
  refine ⟨?_, ⟨rfl, rfl, rfl⟩, ?_, ?_, rfl⟩
  · simp [runStopBody, GoFields.ofList, GoFields.lookup]
  · intro item items
    have hm := marshalList_items ((item :: items).map expandItem)
    refine ⟨GoValues.ofList (((item :: items).map expandItem).map expandedRunListItem.toGo),
      (expandItem item).toJson.render ++
        (JsonList.ofList ((items.map expandItem).map expandedRunListItem.toJson)).renderTail,
      ?_, ?_, ?_⟩
    · simp only [expandedRunListMap, GoFields.ofList, GoFields.lookup, expandRunList_cons,
        Slice.toGo]
      simp
    · simp only [marshal, hm]
    · simp only [encodeJSON, marshal, hm]
      rfl
  · simp [runStopBody, GoFields.ofList, GoFields.lookup]

end ChefLoad
